import Mathlib

/-!
# nucleus-deploy: the install-time reconciliation engine

A shallow embedding of `src/src/install.js`: the structural merge `deepMerge`,
the config reconciler `ensureNucleusConfig`, the manifest script injector
`ensureScripts` and the top-level `main`, followed by the properties of the
specification that were checked against them.

Modelling conventions.

* A JavaScript value is a `Val`.  `Val.obj props proto` is an ordinary object:
  `props` are its own enumerable properties in the order the engine enumerates
  them (array indices ascending, then the other keys in creation order, keys
  distinct), and `proto` is its prototype (`Val.objProto` is `Object.prototype`).
  Copying such an object into a fresh one (`{...o}`) yields the same list.
* Numbers are modelled as integers; `SameValueZero` on numbers is equality of
  values.  A string is spread character by character.
* Values parsed from a file form a tree: two object or array nodes found at
  different places are different references (YAML aliases are not modelled), so
  the `Set` of `deepMerge` never identifies two of them.
* A file holds bytes, of a type `β`.  `readFile(path, 'utf8')` decodes them to a
  text of a type `τ` and `writeFile` encodes a text; decoding is total and may
  lose bytes that are no valid utf8.  Reading an existing file does not fail; a
  write to `nucleus.yaml` fails when the file is locked, other writes succeed.
* The `yaml` package together with the utf8 decoding and encoding is a
  parameter (`Yaml`): its parser and its serializer may throw.  `JSON` together
  with the decoding and encoding is a parameter (`Codec`): its parser may throw,
  its serializer does not.
-/

set_option autoImplicit false

namespace NucleusDeploy

/-! ## Values -/

/-- JavaScript values that occur while the installer runs. -/
inductive Val where
  /-- The value `undefined` (an absent value). -/
  | undefined
  /-- The value `null`. -/
  | null
  /-- A boolean. -/
  | bool (b : Bool)
  /-- A number. -/
  | num (n : Int)
  /-- A string. -/
  | str (s : String)
  /-- The built-in function stored under `name` on `Object.prototype`. -/
  | fn (name : String)
  /-- The object `Object.prototype` itself. -/
  | objProto
  /-- An array. -/
  | arr (items : List Val)
  /-- An ordinary object with its own enumerable properties and its prototype. -/
  | obj (props : List (String × Val)) (proto : Val)

mutual
/-- Decides whether two values are equal. -/
def Val.decEq (a b : Val) : Decidable (a = b) :=
  match a, b with
  | .undefined, .undefined => isTrue rfl
  | .null, .null => isTrue rfl
  | .objProto, .objProto => isTrue rfl
  | .bool x, .bool y =>
    if h : x = y then isTrue (congrArg Val.bool h) else isFalse (fun e => h (Val.bool.inj e))
  | .num x, .num y =>
    if h : x = y then isTrue (congrArg Val.num h) else isFalse (fun e => h (Val.num.inj e))
  | .str x, .str y =>
    if h : x = y then isTrue (congrArg Val.str h) else isFalse (fun e => h (Val.str.inj e))
  | .fn x, .fn y =>
    if h : x = y then isTrue (congrArg Val.fn h) else isFalse (fun e => h (Val.fn.inj e))
  | .arr xs, .arr ys =>
    match Val.decEqList xs ys with
    | isTrue h => isTrue (congrArg Val.arr h)
    | isFalse h => isFalse (fun e => h (Val.arr.inj e))
  | .obj ps p, .obj qs q =>
    match Val.decEqProps ps qs, Val.decEq p q with
    | isTrue h1, isTrue h2 => isTrue (by rw [h1, h2])
    | isFalse h1, _ => isFalse (fun e => h1 (Val.obj.inj e).1)
    | _, isFalse h2 => isFalse (fun e => h2 (Val.obj.inj e).2)
  | .undefined, .null
  | .undefined, .bool _
  | .undefined, .num _
  | .undefined, .str _
  | .undefined, .fn _
  | .undefined, .objProto
  | .undefined, .arr _
  | .undefined, .obj _ _
  | .null, .undefined
  | .null, .bool _
  | .null, .num _
  | .null, .str _
  | .null, .fn _
  | .null, .objProto
  | .null, .arr _
  | .null, .obj _ _
  | .bool _, .undefined
  | .bool _, .null
  | .bool _, .num _
  | .bool _, .str _
  | .bool _, .fn _
  | .bool _, .objProto
  | .bool _, .arr _
  | .bool _, .obj _ _
  | .num _, .undefined
  | .num _, .null
  | .num _, .bool _
  | .num _, .str _
  | .num _, .fn _
  | .num _, .objProto
  | .num _, .arr _
  | .num _, .obj _ _
  | .str _, .undefined
  | .str _, .null
  | .str _, .bool _
  | .str _, .num _
  | .str _, .fn _
  | .str _, .objProto
  | .str _, .arr _
  | .str _, .obj _ _
  | .fn _, .undefined
  | .fn _, .null
  | .fn _, .bool _
  | .fn _, .num _
  | .fn _, .str _
  | .fn _, .objProto
  | .fn _, .arr _
  | .fn _, .obj _ _
  | .objProto, .undefined
  | .objProto, .null
  | .objProto, .bool _
  | .objProto, .num _
  | .objProto, .str _
  | .objProto, .fn _
  | .objProto, .arr _
  | .objProto, .obj _ _
  | .arr _, .undefined
  | .arr _, .null
  | .arr _, .bool _
  | .arr _, .num _
  | .arr _, .str _
  | .arr _, .fn _
  | .arr _, .objProto
  | .arr _, .obj _ _
  | .obj _ _, .undefined
  | .obj _ _, .null
  | .obj _ _, .bool _
  | .obj _ _, .num _
  | .obj _ _, .str _
  | .obj _ _, .fn _
  | .obj _ _, .objProto
  | .obj _ _, .arr _ => isFalse nofun
termination_by structural a
/-- Decides whether two lists of values are equal. -/
def Val.decEqList (xs ys : List Val) : Decidable (xs = ys) :=
  match xs, ys with
  | [], [] => isTrue rfl
  | [], _ :: _ => isFalse nofun
  | _ :: _, [] => isFalse nofun
  | x :: xs, y :: ys =>
    match Val.decEq x y, Val.decEqList xs ys with
    | isTrue h1, isTrue h2 => isTrue (by rw [h1, h2])
    | isFalse h1, _ => isFalse (fun e => h1 (List.cons.inj e).1)
    | _, isFalse h2 => isFalse (fun e => h2 (List.cons.inj e).2)
termination_by structural xs
/-- Decides whether two property lists are equal. -/
def Val.decEqProps (ps qs : List (String × Val)) : Decidable (ps = qs) :=
  match ps, qs with
  | [], [] => isTrue rfl
  | [], _ :: _ => isFalse nofun
  | _ :: _, [] => isFalse nofun
  | (k, x) :: ps, (l, y) :: qs =>
    if hk : k = l then
      match Val.decEq x y, Val.decEqProps ps qs with
      | isTrue h1, isTrue h2 => isTrue (by rw [hk, h1, h2])
      | isFalse h1, _ => isFalse (fun e => h1 (Prod.mk.inj (List.cons.inj e).1).2)
      | _, isFalse h2 => isFalse (fun e => h2 (List.cons.inj e).2)
    else isFalse (fun e => hk (Prod.mk.inj (List.cons.inj e).1).1)
termination_by structural ps
end

instance instDecidableEqVal : DecidableEq Val := Val.decEq

/-- An association list of own properties. -/
abbrev Props := List (String × Val)

namespace Val

/-- The empty object literal `{}`. -/
def emptyObj : Val := .obj [] .objProto

/-- A plain object (prototype `Object.prototype`) with the given own properties. -/
def plain (props : Props) : Val := .obj props .objProto

/-- The test `Array.isArray(v)`. -/
def isArray : Val → Bool
  | .arr _ => true
  | _ => false

/-- The test `typeof v === 'object' && v`: arrays and objects, not `null`,
not functions. -/
def isObjectLike : Val → Bool
  | .arr _ => true
  | .obj _ _ => true
  | .objProto => true
  | _ => false

/-- The test that `v` is an Object in the sense of the language (functions included). -/
def isObject : Val → Bool
  | .fn _ => true
  | v => isObjectLike v

/-- The operator `a ?? b`. -/
def nullish (a b : Val) : Val :=
  match a with
  | .null => b
  | .undefined => b
  | v => v

/-- Truthiness, as used by `a || b`. -/
def truthy : Val → Bool
  | .undefined => false
  | .null => false
  | .bool b => b
  | .num n => n != 0
  | .str s => s != ""
  | _ => true

/-- The comparison `SameValueZero` a `Set` uses.  Primitives are compared by
value; an array or an ordinary object is only the same as itself, and two array
or object nodes of a parsed tree are never the same reference. -/
def sameValueZero : Val → Val → Bool
  | .undefined, .undefined => true
  | .null, .null => true
  | .bool a, .bool b => a == b
  | .num a, .num b => a == b
  | .str a, .str b => a == b
  | .fn a, .fn b => a == b
  | .objProto, .objProto => true
  | _, _ => false

end Val

/-! ## Own properties and property order -/

/-- Reads a run of decimal digits. -/
def parseDigits : List Char → Nat → Option Nat
  | [], acc => some acc
  | c :: cs, acc =>
    if c.isDigit then parseDigits cs (acc * 10 + (c.toNat - 48)) else none

/-- The array index a property key denotes, if any: a canonical decimal numeral
below `2^32 - 1`. -/
def arrayIndex? (k : String) : Option Nat :=
  match k.data with
  | [] => none
  | c :: cs =>
    if c = '0' then (if cs.isEmpty then some 0 else none)
    else
      match parseDigits (c :: cs) 0 with
      | some n => if n < 4294967295 then some n else none
      | none => none

/-- The test `Object.prototype.hasOwnProperty.call(o, key)` on the own properties of an object. -/
def hasOwn : Props → String → Bool
  | [], _ => false
  | (k, _) :: ps, key => k == key || hasOwn ps key

/-- The value of an own property. -/
def getOwn : Props → String → Option Val
  | [], _ => none
  | (k, v) :: ps, key => if k == key then some v else getOwn ps key

/-- Overwrites the value of an existing own property, keeping its place. -/
def replaceOwn : Props → String → Val → Props
  | [], _, _ => []
  | (k, v) :: ps, key, nv =>
    if k == key then (k, nv) :: ps else (k, v) :: replaceOwn ps key nv

/-- Places a new array-index key among the index keys, in ascending order. -/
def insertIndexed (i : Nat) (key : String) (nv : Val) : Props → Props
  | [] => [(key, nv)]
  | (k, v) :: ps =>
    match arrayIndex? k with
    | some j =>
      if j < i then (k, v) :: insertIndexed i key nv ps else (key, nv) :: (k, v) :: ps
    | none => (key, nv) :: (k, v) :: ps

/-- Creates a new own property: an array-index key goes among the index keys,
any other key goes last. -/
def insertProp (key : String) (nv : Val) (ps : Props) : Props :=
  match arrayIndex? key with
  | some i => insertIndexed i key nv ps
  | none => ps ++ [(key, nv)]

/-- Defines an own data property (`CreateDataProperty`): overwrite or create. -/
def defineProp (ps : Props) (key : String) (nv : Val) : Props :=
  if hasOwn ps key then replaceOwn ps key nv else insertProp key nv ps

/-- The index properties of an array, starting at index `i`. -/
def indexProps (i : Nat) : List Val → Props
  | [] => []
  | x :: xs => (toString i, x) :: indexProps (i + 1) xs

/-- The own enumerable string-keyed properties of a value, as `Object.entries`
and object spread see them. -/
def ownEnumerable : Val → Props
  | .obj props _ => props
  | .arr items => indexProps 0 items
  | .str s => indexProps 0 (s.data.map fun c => Val.str (String.singleton c))
  | _ => []

/-! ## The prototype chain -/

/-- The names of the function-valued properties of `Object.prototype`. -/
def objProtoMethods : List String :=
  ["constructor", "__defineGetter__", "__defineSetter__", "hasOwnProperty",
   "__lookupGetter__", "__lookupSetter__", "isPrototypeOf", "propertyIsEnumerable",
   "toString", "valueOf", "toLocaleString"]

/-- The operator `key in o`, walking the prototype chain. -/
def hasProperty : Val → String → Bool
  | .obj props proto, key => hasOwn props key || hasProperty proto key
  | .objProto, key => key == "__proto__" || objProtoMethods.contains key
  | _, _ => false

/-- The read `o[key]` continued along the prototype chain; `receiverProto` is the
prototype of the object the read started from, which the `__proto__` getter
returns. -/
def getFrom (receiverProto : Val) : Val → String → Val
  | .obj props proto, key =>
    match getOwn props key with
    | some v => v
    | none => getFrom receiverProto proto key
  | .objProto, key =>
    if key == "__proto__" then receiverProto
    else if objProtoMethods.contains key then .fn key
    else .undefined
  | _, _ => .undefined

/-- The read `out[key]` on the object with own properties `out` and prototype `proto`. -/
def getProp (out : Props) (proto : Val) (key : String) : Val :=
  getFrom proto (.obj out proto) key

/-- What an assignment finds on the prototype chain. -/
inductive Inherited where
  /-- A writable data property. -/
  | data
  /-- The `__proto__` accessor of `Object.prototype`. -/
  | setter
  /-- Nothing. -/
  | absent
  deriving DecidableEq

/-- Looks `key` up on the prototype chain starting at `proto`. -/
def findInherited : Val → String → Inherited
  | .obj props proto, key => if hasOwn props key then .data else findInherited proto key
  | .objProto, key =>
    if key == "__proto__" then .setter
    else if objProtoMethods.contains key then .data
    else .absent
  | _, _ => .absent

/-- The assignment `out[key] = nv` on an ordinary object: an own property is
overwritten, the inherited `__proto__` accessor changes the prototype when the
value is an object or `null`, and otherwise a new own property is created. -/
def assignProp (out : Props) (proto : Val) (key : String) (nv : Val) : Props × Val :=
  if hasOwn out key then (replaceOwn out key nv, proto)
  else
    match findInherited proto key with
    | .setter => (out, if nv.isObject then nv else match nv with | .null => .null | _ => proto)
    | _ => (insertProp key nv out, proto)

/-! ## `deepMerge` -/

/-- The step `set.add(x)` on the insertion-ordered contents of a `Set`. -/
def setAdd (seen : List Val) (x : Val) : List Val :=
  if seen.any (fun y => Val.sameValueZero y x) then seen else seen ++ [x]

/-- The contents of `Array.from(new Set(xs))`. -/
def uniqueValues (xs : List Val) : List Val :=
  xs.foldl setAdd []

mutual
/-- The function `deepMerge(target, source)` of `install.js`. -/
def deepMerge (target : Val) (source : Val) : Val :=
  match source with
  | .arr s =>
    match target with
    | .arr t => .arr (uniqueValues (t ++ s))
    | t =>
      if t.isObjectLike then mergeItems (ownEnumerable t) .objProto 0 s
      else Val.nullish t (.arr s)
  | .obj sp sq =>
    if target.isObjectLike then mergeProps (ownEnumerable target) .objProto sp
    else Val.nullish target (.obj sp sq)
  | .objProto =>
    if target.isObjectLike then .obj (ownEnumerable target) .objProto
    else Val.nullish target .objProto
  | s => Val.nullish target s
termination_by structural source
/-- The loop `for (const [key, value] of Object.entries(source))` over the
properties of an object `source`; `out` and `proto` are the own properties and
the prototype of the object `out` built so far. -/
def mergeProps (out : Props) (proto : Val) (entries : Props) : Val :=
  match entries with
  | [] => .obj out proto
  | (key, value) :: rest =>
    if hasProperty (.obj out proto) key then
      let r := assignProp out proto key (deepMerge (getProp out proto key) value)
      mergeProps r.1 r.2 rest
    else
      mergeProps (insertProp key value out) proto rest
termination_by structural entries
/-- The same loop over the entries of an array `source`, from index `i` on. -/
def mergeItems (out : Props) (proto : Val) (i : Nat) (items : List Val) : Val :=
  match items with
  | [] => .obj out proto
  | value :: rest =>
    if hasProperty (.obj out proto) (toString i) then
      let r := assignProp out proto (toString i)
        (deepMerge (getProp out proto (toString i)) value)
      mergeItems r.1 r.2 (i + 1) rest
    else
      mergeItems (insertProp (toString i) value out) proto (i + 1) rest
termination_by structural items
end

/-! ## Files, codecs and the run summary -/

/-- The files of the consumer project the installer writes. -/
inductive File where
  /-- The target config `nucleus.yaml`. -/
  | config
  /-- The quarantine file `nucleus.yaml.bak`. -/
  | backup
  /-- The manifest `package.json`. -/
  | manifest
  deriving DecidableEq

/-- The functions `readJson` and `writeJson` without the file access: a parser of
file bytes that may throw (`none`) and a serializer to file bytes. -/
structure Codec (β : Type) where
  /-- The parser: `JSON.parse` of the bytes decoded as utf8. -/
  parse : β → Option Val
  /-- The serializer: the utf8 bytes of `JSON.stringify(obj, null, 2) + '\n'`, which
  omits functions and does not throw on these values. -/
  stringify : Val → β

/-- The `yaml` package and the utf8 conversions of `readFile` and `writeFile`,
over file bytes `β` and texts `τ`. -/
structure Yaml (β τ : Type) where
  /-- The decoding `readFile(path, 'utf8')` applies to the bytes of a file; bytes
  that are no valid utf8 are replaced. -/
  decode : β → τ
  /-- The encoding `writeFile` applies to a text. -/
  encode : τ → β
  /-- The parser `YAML.parse`: `none` when it throws. -/
  parse : τ → Option Val
  /-- The serializer `YAML.stringify`: `none` when it throws, as it does on a
  function value. -/
  stringify : Val → Option τ

/-- The state the installer works on: the files, the log of `writeFile` calls,
the run summary and the console. -/
structure World (β : Type) where
  /-- The directory `templates` next to `install.js`: absent, or present with
  the bytes of its `nucleus.yaml` if that file exists. -/
  distTemplates : Option (Option β)
  /-- The directory `src/templates` of the package, likewise. -/
  srcTemplates : Option (Option β)
  /-- The bytes of `nucleus.yaml` in the consumer root, if the file exists. -/
  config : Option β
  /-- The bytes of `nucleus.yaml.bak`, if the file exists. -/
  backup : Option β
  /-- The bytes of `package.json`, if the file exists. -/
  manifest : Option β
  /-- Whether a write to `nucleus.yaml` fails (a read-only file). -/
  configLocked : Bool
  /-- The resolved path of `package.json`, as it is printed. -/
  manifestPath : String
  /-- The `writeFile` calls on consumer files so far, oldest first. -/
  writes : List (File × β)
  /-- The entries of `summary.actions`. -/
  actions : List String
  /-- The entries of `summary.notes`. -/
  notes : List String
  /-- The texts passed to `console.log`. -/
  stdout : List String
  /-- Whether `console.error` reported a failed postinstall. -/
  failed : Bool

/-- How a call ends: normally, or by throwing, in the state reached. -/
inductive Outcome (σ : Type) where
  /-- The call returned. -/
  | done (w : σ)
  /-- The call threw. -/
  | threw (w : σ)

namespace World

variable {β : Type}

/-- A successful call `writeFile(path, text)` on a consumer file, with the bytes
the text is encoded to. -/
def writeFile (w : World β) (f : File) (bytes : β) : World β :=
  match f with
  | .config => { w with config := some bytes, writes := w.writes ++ [(f, bytes)] }
  | .backup => { w with backup := some bytes, writes := w.writes ++ [(f, bytes)] }
  | .manifest => { w with manifest := some bytes, writes := w.writes ++ [(f, bytes)] }

/-- The call `writeFile(destPath, text, 'utf8')`: `none` when it throws. -/
def writeConfig (w : World β) (bytes : β) : Option (World β) :=
  if w.configLocked then none else some (w.writeFile .config bytes)

/-- The call `summary.actions.push(a)`. -/
def addAction (w : World β) (a : String) : World β :=
  { w with actions := w.actions ++ [a] }

/-- The call `summary.notes.push(n)`. -/
def addNote (w : World β) (n : String) : World β :=
  { w with notes := w.notes ++ [n] }

/-- The bytes `readFile(templatePath, 'utf8')` reads: `none` when it throws. -/
def readTemplate (w : World β) : Option β :=
  match w.distTemplates with
  | some (some bytes) => some bytes
  | _ => none

end World

/-! ## `ensureNucleusConfig` -/

variable {β τ : Type}

/-- The two statements that load the template document,
`YAML.parse(await readFile(templatePath, 'utf8')) ?? {}`: `none` when one of
them throws. -/
def loadTemplate (Y : Yaml β τ) (w : World β) : Option Val :=
  match w.readTemplate with
  | none => none
  | some templateBytes =>
    match Y.parse (Y.decode templateBytes) with
    | none => none
    | some doc => some (Val.nullish doc Val.emptyObj)

/-- The `try` block of `ensureNucleusConfig` on an existing target: `none` when a
statement of the block throws, which leaves the state as it was. -/
def reconcileExisting [DecidableEq τ] (Y : Yaml β τ) (w : World β) (templateDoc : Val)
    (existingBytes : β) : Option (World β) :=
  let existingRaw := Y.decode existingBytes
  match Y.parse existingRaw with
  | none => none
  | some parsed =>
    let existingDoc := Val.nullish parsed Val.emptyObj
    let merged := deepMerge existingDoc templateDoc
    match Y.stringify merged with
    | none => none
    | some mergedRaw =>
      if mergedRaw ≠ existingRaw then
        match w.writeConfig (Y.encode mergedRaw) with
        | none => none
        | some w1 => some (w1.addAction "Updated nucleus.yaml with missing defaults")
      else
        some (w.addAction "nucleus.yaml already up to date")

/-- The function `ensureNucleusConfig(consumerRoot, summary)` of `install.js`. -/
def ensureNucleusConfig [DecidableEq τ] (Y : Yaml β τ) (w : World β) : Outcome (World β) :=
  match loadTemplate Y w with
  | none => .threw w
  | some templateDoc =>
    match w.config with
    | none =>
      match Y.stringify templateDoc with
      | none => .threw w
      | some text =>
        match w.writeConfig (Y.encode text) with
        | none => .threw w
        | some w1 => .done (w1.addAction "Created nucleus.yaml")
    | some existingBytes =>
      match reconcileExisting Y w templateDoc existingBytes with
      | some w1 => .done w1
      | none =>
        let w1 := w.writeFile .backup (Y.encode (Y.decode existingBytes))
        match Y.stringify templateDoc with
        | none => .threw w1
        | some text =>
          match w1.writeConfig (Y.encode text) with
          | none => .threw w1
          | some w2 =>
            .done ((w2.addAction
              "Backed up invalid nucleus.yaml to nucleus.yaml.bak and wrote a fresh template").addNote
              "Your previous nucleus.yaml could not be parsed. Please manually merge from nucleus.yaml.bak.")

/-! ## `ensureScripts` -/

/-- The table `recommended` of `ensureScripts`. -/
def recommended : List (String × String) :=
  [("nucleus:help", "node -e \"import('nucleus-deploy').then(m=>m.run(['help']))\""),
   ("nucleus:hello", "node -e \"import('nucleus-deploy').then(m=>m.run(['hello']))\""),
   ("nucleus:deploy", "node -e \"import('nucleus-deploy').then(m=>m.run(['deploy']))\"")]

/-- The read `pkg.scripts`: `none` when it throws (`pkg` is `null`). -/
def readScripts : Val → Option Val
  | .null => none
  | .undefined => none
  | .obj props proto => some (getProp props proto "scripts")
  | _ => some .undefined

/-- The call `Object.prototype.hasOwnProperty.call(v, key)`. -/
def hasOwnProperty : Val → String → Bool
  | .obj props _, key => hasOwn props key
  | .arr items, key =>
    key == "length" ||
      (match arrayIndex? key with
       | some i => decide (i < items.length)
       | none => false)
  | .str s, key =>
    key == "length" ||
      (match arrayIndex? key with
       | some i => decide (i < s.length)
       | none => false)
  | .fn _, key => key == "length" || key == "name"
  | .objProto, key => key == "__proto__" || objProtoMethods.contains key
  | _, _ => false

/-- The loop that fills `toAdd`: own properties and prototype of `toAdd` after
the entries `table` of the recommended table. -/
def collectMissing (existingScripts : Val) (table : List (String × String))
    (toAdd : Props × Val) : Props × Val :=
  table.foldl
    (fun acc entry =>
      if !hasOwnProperty existingScripts entry.1 then
        assignProp acc.1 acc.2 entry.1 (.str entry.2)
      else acc)
    toAdd

/-- The object spread `{ ...a, ...b }`, given the own enumerable properties of
`a` and of `b`. -/
def spreadBoth (a b : Props) : Val :=
  Val.plain (b.foldl (fun acc entry => defineProp acc entry.1 entry.2) a)

/-- The assignment `pkg.scripts = v`: `none` when it throws (a primitive `pkg`
in module code); a property put on an array is not an index property, so the
array the model keeps is unchanged. -/
def writeScripts (pkg : Val) (v : Val) : Option Val :=
  match pkg with
  | .obj props proto =>
    let r := assignProp props proto "scripts" v
    some (.obj r.1 r.2)
  | .arr items => some (.arr items)
  | .fn name => some (.fn name)
  | .objProto => some .objProto
  | _ => none

/-- The function `ensureScripts(consumerRoot, summary)` of `install.js`. -/
def ensureScripts (J : Codec β) (w : World β) : Outcome (World β) :=
  match w.manifest with
  | none =>
    .done (w.addNote
      ("No package.json found at " ++ w.manifestPath ++ ". Skipped adding scripts."))
  | some data =>
    match J.parse data with
    | none => .threw w
    | some pkg =>
      match readScripts pkg with
      | none => .threw w
      | some scripts =>
        let existingScripts := if scripts.truthy then scripts else Val.emptyObj
        let toAdd := (collectMissing existingScripts recommended ([], .objProto)).1
        if toAdd.length > 0 then
          match writeScripts pkg (spreadBoth (ownEnumerable existingScripts) toAdd) with
          | none => .threw w
          | some pkg1 =>
            .done ((w.writeFile .manifest (J.stringify pkg1)).addAction
              ("Added package.json scripts: " ++ ", ".intercalate (toAdd.map Prod.fst)))
        else
          .done (w.addAction "All recommended package.json scripts already present")

/-! ## `main` -/

/-- The first step of `main`: when the directory `templates` is missing and
`src/templates` exists, the latter is copied to the former. -/
def prepareTemplates (w : World β) : World β :=
  match w.distTemplates with
  | some _ => w
  | none =>
    match w.srcTemplates with
    | some t => { w with distTemplates := some t }
    | none => w

/-- The text `main` prints at the end. -/
def renderSummary (actions notes : List String) : String :=
  "\n".intercalate
    (["nucleus-deploy installation summary", "-----------------------------------"]
      ++ actions.map (fun a => "- " ++ a)
      ++ (if notes.length > 0 then "Notes:" :: notes.map (fun n => "- " ++ n) else [])
      ++ ["Next steps:",
          "- Review nucleus.yaml and fill in required fields like projectName, environments.",
          "- Run 'npm run nucleus:help' to see available commands."])

/-- The handler `catch (err)` of `main`: the failure is reported on the console. -/
def reportFailure (w : World β) : World β :=
  { w with failed := true }

/-- The function `main()` of `install.js`, started with a fresh summary. -/
def main [DecidableEq τ] (Y : Yaml β τ) (J : Codec β) (w0 : World β) : World β :=
  let w := prepareTemplates { w0 with actions := [], notes := [] }
  match ensureNucleusConfig Y w with
  | .threw w1 => reportFailure w1
  | .done w1 =>
    match ensureScripts J w1 with
    | .threw w2 => reportFailure w2
    | .done w2 => { w2 with stdout := w2.stdout ++ [renderSummary w2.actions w2.notes] }

/-! ## Notions of the specification -/

/-- The relation "`r` deep-contains `v`" of the non-destructiveness property, as
amended: a value `null` or absent (and the object `Object.prototype`, which is no
document) is contained in anything, any other scalar only in itself, a sequence
in a sequence holding each of its elements, and a mapping in a mapping that has
each of its keys with a value deep-containing the original one. -/
inductive DeepContains : Val → Val → Prop where
  /-- A `null` may be filled by anything. -/
  | null (r : Val) : DeepContains .null r
  /-- So may an absent value. -/
  | undefined (r : Val) : DeepContains .undefined r
  /-- The object `Object.prototype` is not a document value. -/
  | objProto (r : Val) : DeepContains .objProto r
  /-- A boolean stays equal. -/
  | bool (b : Bool) : DeepContains (.bool b) (.bool b)
  /-- A number stays equal. -/
  | num (n : Int) : DeepContains (.num n) (.num n)
  /-- A string stays equal. -/
  | str (s : String) : DeepContains (.str s) (.str s)
  /-- A built-in function stays equal. -/
  | fn (name : String) : DeepContains (.fn name) (.fn name)
  /-- A sequence stays a sequence with every original element. -/
  | arr (t r : List Val) (h : ∀ x, x ∈ t → x ∈ r) : DeepContains (.arr t) (.arr r)
  /-- A mapping stays a mapping with every original key. -/
  | obj (tp : Props) (tq : Val) (rp : Props) (rq : Val)
      (hkey : ∀ k v, getOwn tp k = some v → ∃ v1, getOwn rp k = some v1)
      (hval : ∀ k v v1, getOwn tp k = some v → getOwn rp k = some v1 → DeepContains v v1) :
      DeepContains (.obj tp tq) (.obj rp rq)

mutual
/-- No sequence of `target` is merged against a mapping of `source`: the test
follows the recursion of `deepMerge` through the own properties of `target`. -/
def seqNeverMeetsMapping (target : Val) (source : Val) : Bool :=
  match source with
  | .arr s =>
    match target with
    | .obj tp _ => itemsNeverMeet tp 0 s
    | _ => true
  | .obj sp _ =>
    match target with
    | .arr _ => false
    | .obj tp _ => propsNeverMeet tp sp
    | _ => true
  | .objProto => !target.isArray
  | _ => true
termination_by structural source
/-- The test `seqNeverMeetsMapping` along the properties of a source mapping. -/
def propsNeverMeet (tp : Props) (entries : Props) : Bool :=
  match entries with
  | [] => true
  | (key, value) :: rest =>
    (match getOwn tp key with
     | some tv => seqNeverMeetsMapping tv value
     | none => true) && propsNeverMeet tp rest
termination_by structural entries
/-- The test `seqNeverMeetsMapping` along the entries of a source sequence. -/
def itemsNeverMeet (tp : Props) (i : Nat) (items : List Val) : Bool :=
  match items with
  | [] => true
  | value :: rest =>
    (match getOwn tp (toString i) with
     | some tv => seqNeverMeetsMapping tv value
     | none => true) && itemsNeverMeet tp (i + 1) rest
termination_by structural items
end

/-- The recommended commands whose name is not a key of the scripts table `es`. -/
def missingCommands (es : Props) : List (String × String) :=
  recommended.filter (fun entry => !hasOwn es entry.1)

/-- The entries of a command table as properties. -/
def asProps (table : List (String × String)) : Props :=
  table.map (fun entry => (entry.1, Val.str entry.2))

/-- The value the mapping rule of the specification gives a key: the merged value
when both mappings have the key, else the value of the one that has it. -/
def combineAt (tv sv : Option Val) : Option Val :=
  match tv, sv with
  | some t, some s => some (deepMerge t s)
  | some t, none => some t
  | none, some s => some s
  | none, none => none

/-- The test that a value is `undefined`, `null`, a boolean, a number or a string. -/
def Val.isPrimitive : Val → Bool
  | .undefined => true
  | .null => true
  | .bool _ => true
  | .num _ => true
  | .str _ => true
  | _ => false

/-! ## Example documents, codecs and states -/

/-- The mapping `{name: "prod"}`. -/
def prodEntry : Val := Val.plain [("name", .str "prod")]

/-- The template `{environments: [{name: "prod"}]}`. -/
def listTemplate : Val := Val.plain [("environments", .arr [prodEntry])]

/-- A JSON codec whose file contents are the documents themselves: parsing a
serialized document returns that document. -/
def idCodec : Codec Val where
  parse := fun bytes => some bytes
  stringify := fun doc => doc

/-- A `Yaml` whose file contents and texts are the documents themselves: parsing
a serialized document returns that document. -/
def idYaml : Yaml Val Val where
  decode := fun bytes => bytes
  encode := fun text => text
  parse := fun text => some text
  stringify := fun doc => some doc

/-- The character a byte decodes to when every byte from 128 on is invalid where
it stands: an ASCII byte is its character, any other byte the replacement
character U+FFFD. -/
def byteChar (b : Nat) : Char :=
  if b < 128 then Char.ofNat b else Char.ofNat 65533

/-- The utf8 decoding of bytes among which none from 128 on starts or continues a
valid sequence (such as the byte 255). -/
def decodeLossy (bytes : List Nat) : String :=
  String.mk (bytes.map byteChar)

/-- The utf8 encoding of a character. -/
def charBytes (c : Char) : List Nat :=
  if c.toNat < 128 then [c.toNat]
  else if c.toNat < 2048 then [192 + c.toNat / 64, 128 + c.toNat % 64]
  else if c.toNat < 65536 then
    [224 + c.toNat / 4096, 128 + c.toNat / 64 % 64, 128 + c.toNat % 64]
  else
    [240 + c.toNat / 262144, 128 + c.toNat / 4096 % 64, 128 + c.toNat / 64 % 64,
      128 + c.toNat % 64]

/-- The utf8 encoding of a text. -/
def encodeUtf8 (text : String) : List Nat :=
  text.data.foldr (fun c acc => charBytes c ++ acc) []

/-- A fragment of the `yaml` package over bytes: it parses four texts (the empty
mapping, the empty mapping after a comment line, `projectName: app` and
`toString: x`) and rejects every other text; it serializes the empty mapping,
`{projectName: "app"}` and `{toString: "x"}` as the package does and throws on a
mapping whose single value is a function. -/
def tinyYaml : Yaml (List Nat) String where
  decode := decodeLossy
  encode := encodeUtf8
  parse := fun text =>
    if text = "# staging\n\x7b\x7d\n" ∨ text = "\x7b\x7d\n" then some Val.emptyObj
    else if text = "projectName: app\n" then some (Val.plain [("projectName", .str "app")])
    else if text = "toString: x\n" then some (Val.plain [("toString", .str "x")])
    else none
  stringify := fun doc =>
    match doc with
    | .obj [] _ => some "\x7b\x7d\n"
    | .obj [("projectName", .str "app")] _ => some "projectName: app\n"
    | .obj [("toString", .str "x")] _ => some "toString: x\n"
    | .obj [(_, .fn _)] _ => none
    | _ => some "?\n"

/-- A state with the given template, config and manifest bytes and nothing else. -/
def World.initial {β : Type} (template config manifest : Option β) : World β where
  distTemplates := some template
  srcTemplates := none
  config := config
  backup := none
  manifest := manifest
  configLocked := false
  manifestPath := "/app/package.json"
  writes := []
  actions := []
  notes := []
  stdout := []
  failed := false

/-- A state whose template is the empty mapping and whose config is the text
`name: [`, which does not parse. -/
def brokenConfigWorld : World (List Nat) :=
  World.initial (some (encodeUtf8 "\x7b\x7d\n")) (some (encodeUtf8 "name: [")) none

/-- A state whose template is the empty mapping and whose config holds the bytes
of `name: [` followed by the byte 255, which is no valid utf8. -/
def invalidUtf8World : World (List Nat) :=
  World.initial (some (encodeUtf8 "\x7b\x7d\n")) (some [110, 97, 109, 101, 58, 32, 91, 255]) none

/-- A state whose template and config both hold the canonical empty mapping. -/
def tidyConfigWorld : World (List Nat) :=
  World.initial (some (encodeUtf8 "\x7b\x7d\n")) (some (encodeUtf8 "\x7b\x7d\n")) none

/-- A state whose template is the empty mapping and whose config is the empty
mapping after a comment line. -/
def commentedConfigWorld : World (List Nat) :=
  World.initial (some (encodeUtf8 "\x7b\x7d\n")) (some (encodeUtf8 "# staging\n\x7b\x7d\n")) none

/-- A state whose template is `projectName: app` and whose config is the empty mapping. -/
def missingDefaultWorld : World (List Nat) :=
  World.initial (some (encodeUtf8 "projectName: app\n")) (some (encodeUtf8 "\x7b\x7d\n")) none

/-- A state whose template is `toString: x` and whose config is the empty mapping. -/
def inheritedKeyWorld : World (List Nat) :=
  World.initial (some (encodeUtf8 "toString: x\n")) (some (encodeUtf8 "\x7b\x7d\n")) none

/-- The manifest `{name: "app", scripts: {"nucleus:deploy": "custom"}}`. -/
def customManifest : Props :=
  [("name", .str "app"), ("scripts", Val.plain [("nucleus:deploy", .str "custom")])]

/-- A state that holds only that manifest. -/
def customWorld : World Val :=
  World.initial none none (some (Val.plain customManifest))

/-- A state whose `templates` directory exists without a `nucleus.yaml`, with a
config and that manifest. -/
def noTemplateWorld : World Val :=
  World.initial none (some Val.emptyObj) (some (Val.plain customManifest))

/-! ## Own-property lemmas -/

theorem hasOwn_eq_isSome (ps : Props) (key : String) :
    hasOwn ps key = (getOwn ps key).isSome := by
  induction ps with
  | nil => rfl
  | cons p ps ih =>
    obtain ⟨k, v⟩ := p
    by_cases h : k = key <;> simp [hasOwn, getOwn, h, ih]

theorem hasOwn_of_getOwn {ps : Props} {key : String} {v : Val}
    (h : getOwn ps key = some v) : hasOwn ps key = true := by
  rw [hasOwn_eq_isSome, h]; rfl

theorem getOwn_of_hasOwn_false {ps : Props} {key : String}
    (h : hasOwn ps key = false) : getOwn ps key = none := by
  rw [hasOwn_eq_isSome] at h
  cases hg : getOwn ps key with
  | none => rfl
  | some v => rw [hg] at h; cases h

theorem getOwn_replaceOwn_ne (ps : Props) (key k : String) (nv : Val) (h : k ≠ key) :
    getOwn (replaceOwn ps key nv) k = getOwn ps k := by
  induction ps with
  | nil => rfl
  | cons p ps ih =>
    obtain ⟨k1, v1⟩ := p
    by_cases h1 : k1 = key
    · subst h1
      have : ¬ k1 = k := fun e => h e.symm
      simp [replaceOwn, getOwn, this]
    · by_cases h2 : k1 = k
      · subst h2
        simp [replaceOwn, getOwn, h1]
      · simp [replaceOwn, getOwn, h1, h2, ih]

theorem getOwn_replaceOwn_self (ps : Props) (key : String) (nv : Val)
    (h : hasOwn ps key = true) : getOwn (replaceOwn ps key nv) key = some nv := by
  induction ps with
  | nil => cases h
  | cons p ps ih =>
    obtain ⟨k1, v1⟩ := p
    by_cases h1 : k1 = key
    · simp [replaceOwn, getOwn, h1]
    · have h2 : hasOwn ps key = true := by simpa [hasOwn, h1] using h
      simp [replaceOwn, getOwn, h1, ih h2]

theorem getOwn_insertIndexed_ne (i : Nat) (ps : Props) (key k : String) (nv : Val)
    (h : k ≠ key) : getOwn (insertIndexed i key nv ps) k = getOwn ps k := by
  have hk : ¬ key = k := fun e => h e.symm
  induction ps with
  | nil => simp [insertIndexed, getOwn, hk]
  | cons p ps ih =>
    obtain ⟨k1, v1⟩ := p
    simp only [insertIndexed]
    split
    · split
      · by_cases h2 : k1 = k <;> simp [getOwn, h2, ih]
      · simp [getOwn, hk]
    · simp [getOwn, hk]

theorem getOwn_append (ps qs : Props) (k : String) :
    getOwn (ps ++ qs) k = (getOwn ps k).orElse (fun _ => getOwn qs k) := by
  induction ps with
  | nil => simp [getOwn]
  | cons p ps ih =>
    obtain ⟨k1, v1⟩ := p
    by_cases h : k1 = k <;> simp [getOwn, h, ih]

theorem getOwn_insertProp_ne (ps : Props) (key k : String) (nv : Val) (h : k ≠ key) :
    getOwn (insertProp key nv ps) k = getOwn ps k := by
  have hk : ¬ key = k := fun e => h e.symm
  unfold insertProp
  split
  · exact getOwn_insertIndexed_ne _ ps key k nv h
  · rw [getOwn_append]
    cases getOwn ps k <;> simp [getOwn, hk]

theorem getOwn_insertIndexed_self (i : Nat) (ps : Props) (key : String) (nv : Val)
    (h : hasOwn ps key = false) : getOwn (insertIndexed i key nv ps) key = some nv := by
  induction ps with
  | nil => simp [insertIndexed, getOwn]
  | cons p ps ih =>
    obtain ⟨k1, v1⟩ := p
    have h1 : ¬ k1 = key := by
      intro e; simp [hasOwn, e] at h
    have h2 : hasOwn ps key = false := by simpa [hasOwn, h1] using h
    simp only [insertIndexed]
    split
    · split
      · simp [getOwn, h1, ih h2]
      · simp [getOwn]
    · simp [getOwn]

theorem getOwn_insertProp_self (ps : Props) (key : String) (nv : Val)
    (h : hasOwn ps key = false) : getOwn (insertProp key nv ps) key = some nv := by
  unfold insertProp
  split
  · exact getOwn_insertIndexed_self _ ps key nv h
  · rw [getOwn_append, getOwn_of_hasOwn_false h]
    simp [getOwn]

/-- An assignment `out[key] = nv` leaves every other own property as it was. -/
theorem getOwn_assignProp_ne (out : Props) (proto : Val) (key k : String) (nv : Val)
    (h : k ≠ key) : getOwn (assignProp out proto key nv).1 k = getOwn out k := by
  unfold assignProp
  split
  · exact getOwn_replaceOwn_ne out key k nv h
  · split
    · rfl
    · exact getOwn_insertProp_ne out key k nv h

/-- An assignment to an own property stores the value. -/
theorem getOwn_assignProp_own (out : Props) (proto : Val) (key : String) (nv : Val)
    (h : hasOwn out key = true) : getOwn (assignProp out proto key nv).1 key = some nv := by
  unfold assignProp
  rw [if_pos h]
  exact getOwn_replaceOwn_self out key nv h

/-- A read of an own property returns its value. -/
theorem getProp_own (out : Props) (proto : Val) (key : String) (v : Val)
    (h : getOwn out key = some v) : getProp out proto key = v := by
  simp [getProp, getFrom, h]

/-! ## Non-destructiveness of `deepMerge` -/

theorem eq_of_sameValueZero {a b : Val} (h : Val.sameValueZero a b = true) : a = b := by
  cases a <;> cases b <;> simp_all [Val.sameValueZero]

theorem mem_foldl_setAdd (xs seen : List Val) (x : Val) (h : x ∈ seen ∨ x ∈ xs) :
    x ∈ xs.foldl setAdd seen := by
  induction xs generalizing seen with
  | nil => simpa using h
  | cons y ys ih =>
    simp only [List.foldl_cons]
    apply ih
    rcases h with h | h
    · left
      unfold setAdd
      split
      · exact h
      · exact List.mem_append_left _ h
    · rcases List.mem_cons.mp h with h | h
      · subst h
        left
        unfold setAdd
        split
        · rename_i hany
          obtain ⟨y, hy, hs⟩ := List.any_eq_true.mp hany
          rw [← eq_of_sameValueZero hs]
          exact hy
        · simp
      · right; exact h

/-- Every element handed to the `Set` is among its contents. -/
theorem mem_uniqueValues (xs : List Val) (x : Val) (h : x ∈ xs) : x ∈ uniqueValues xs :=
  mem_foldl_setAdd xs [] x (Or.inr h)

mutual
/-- Every value deep-contains itself. -/
theorem DeepContains.refl (v : Val) : DeepContains v v :=
  match v with
  | .undefined => .undefined _
  | .null => .null _
  | .bool b => .bool b
  | .num n => .num n
  | .str s => .str s
  | .fn name => .fn name
  | .objProto => .objProto _
  | .arr t => .arr t t (fun _ h => h)
  | .obj tp tq =>
    .obj tp tq tp tq (fun _ v h => ⟨v, h⟩)
      (fun k v v1 h h1 => by
        have e : v = v1 := Option.some.inj (h.symm.trans h1)
        subst e
        exact DeepContains.refl_props tp k v h)
/-- Every value of a property list deep-contains itself. -/
theorem DeepContains.refl_props (ps : Props) (k : String) (v : Val)
    (h : getOwn ps k = some v) : DeepContains v v :=
  match ps, h with
  | (k1, v1) :: rest, h =>
    if hk : k1 = k then by
      have e : v1 = v := by simpa [getOwn, hk] using h
      subst e
      exact DeepContains.refl v1
    else
      DeepContains.refl_props rest k v (by simpa [getOwn, hk] using h)
end

/-- One step of the merge loop that assigns to a key the object already has keeps
the containment of a target mapping, given containment for the merged value. -/
theorem DeepContains.assign_step (tp : Props) (tq : Val) (out : Props) (proto : Val)
    (key : String) (nv : Val)
    (h : DeepContains (.obj tp tq) (.obj out proto))
    (hnv : ∀ v x, getOwn tp key = some v → getOwn out key = some x → DeepContains v nv) :
    DeepContains (.obj tp tq)
      (.obj (assignProp out proto key nv).1 (assignProp out proto key nv).2) := by
  cases h with
  | obj _ _ _ _ hkey hval =>
    refine .obj _ _ _ _ ?_ ?_
    · intro k v hk
      obtain ⟨x, hx⟩ := hkey k v hk
      by_cases e : k = key
      · subst e
        exact ⟨nv, getOwn_assignProp_own out proto k nv (hasOwn_of_getOwn hx)⟩
      · exact ⟨x, by rw [getOwn_assignProp_ne out proto key k nv e]; exact hx⟩
    · intro k v v1 hk h1
      obtain ⟨x, hx⟩ := hkey k v hk
      by_cases e : k = key
      · subst e
        rw [getOwn_assignProp_own out proto k nv (hasOwn_of_getOwn hx)] at h1
        cases h1
        exact hnv v x hk hx
      · rw [getOwn_assignProp_ne out proto key k nv e] at h1
        exact hval k v v1 hk h1

/-- One step of the merge loop that creates a key the object does not have keeps
the containment of a target mapping. -/
theorem DeepContains.insert_step (tp : Props) (tq : Val) (out : Props) (proto : Val)
    (key : String) (nv : Val)
    (h : DeepContains (.obj tp tq) (.obj out proto))
    (hnot : hasProperty (.obj out proto) key = false) :
    DeepContains (.obj tp tq) (.obj (insertProp key nv out) proto) := by
  have hown : hasOwn out key = false := by
    simp only [hasProperty, Bool.or_eq_false_iff] at hnot
    exact hnot.1
  cases h with
  | obj _ _ _ _ hkey hval =>
    have hne : ∀ k v, getOwn tp k = some v → k ≠ key := by
      intro k v hk e
      subst e
      obtain ⟨x, hx⟩ := hkey k v hk
      rw [getOwn_of_hasOwn_false hown] at hx
      cases hx
    refine .obj _ _ _ _ ?_ ?_
    · intro k v hk
      obtain ⟨x, hx⟩ := hkey k v hk
      exact ⟨x, by rw [getOwn_insertProp_ne out key k nv (hne k v hk)]; exact hx⟩
    · intro k v v1 hk h1
      rw [getOwn_insertProp_ne out key k nv (hne k v hk)] at h1
      exact hval k v v1 hk h1

/-- A `source` that is neither an array nor an object is only used when `target`
is `null` or absent. -/
theorem deepMerge_of_source_not_objectLike (target source : Val)
    (h : source.isObjectLike = false) : deepMerge target source = Val.nullish target source := by
  cases source <;> simp_all [deepMerge, Val.isObjectLike]

/-- A `target` that is neither an array nor an object wins unless it is `null` or absent. -/
theorem deepMerge_of_target_not_objectLike (target source : Val)
    (h : target.isObjectLike = false) : deepMerge target source = Val.nullish target source := by
  cases source <;> cases target <;> simp_all [deepMerge, Val.isObjectLike]

theorem DeepContains.nullish {v x : Val} (s : Val) (h : DeepContains v x) :
    DeepContains v (Val.nullish x s) := by
  cases h with
  | null => exact .null _
  | undefined => exact .undefined _
  | objProto => exact .objProto _
  | bool b => exact .bool b
  | num n => exact .num n
  | str t => exact .str t
  | fn name => exact .fn name
  | arr t r hr => exact .arr t r hr
  | obj tp tq rp rq hkey hval => exact .obj tp tq rp rq hkey hval

mutual
/-- Merging a template value into a value that deep-contains `v` gives a value
that deep-contains `v`, when no sequence of `v` meets a mapping of the template. -/
theorem deepMerge_deepContains (s : Val) (v x : Val) (h : DeepContains v x)
    (hs : seqNeverMeetsMapping v s = true) : DeepContains v (deepMerge x s) :=
  match s with
  | .arr ss => by
    cases h with
    | null => exact .null _
    | undefined => exact .undefined _
    | objProto => exact .objProto _
    | bool b => exact .bool b
    | num n => exact .num n
    | str t => exact .str t
    | fn name => exact .fn name
    | arr t r hr =>
      rw [deepMerge]
      exact .arr _ _ (fun y hy => mem_uniqueValues _ y (List.mem_append_left _ (hr y hy)))
    | obj tp tq rp rq hkey hval =>
      have hs1 : itemsNeverMeet tp 0 ss = true := by
        simpa [seqNeverMeetsMapping] using hs
      have := mergeItems_deepContains ss tp tq rp .objProto 0 (.obj _ _ _ _ hkey hval) hs1
      simpa [deepMerge, Val.isObjectLike, ownEnumerable] using this
  | .obj sp sq => by
    cases h with
    | null => exact .null _
    | undefined => exact .undefined _
    | objProto => exact .objProto _
    | bool b => exact .bool b
    | num n => exact .num n
    | str t => exact .str t
    | fn name => exact .fn name
    | arr t r hr => simp [seqNeverMeetsMapping] at hs
    | obj tp tq rp rq hkey hval =>
      have hs1 : propsNeverMeet tp sp = true := by
        simpa [seqNeverMeetsMapping] using hs
      have := mergeProps_deepContains sp tp tq rp .objProto (.obj _ _ _ _ hkey hval) hs1
      simpa [deepMerge, Val.isObjectLike, ownEnumerable] using this
  | .objProto => by
    cases h with
    | null => exact .null _
    | undefined => exact .undefined _
    | objProto => exact .objProto _
    | bool b => exact .bool b
    | num n => exact .num n
    | str t => exact .str t
    | fn name => exact .fn name
    | arr t r hr => simp [seqNeverMeetsMapping, Val.isArray] at hs
    | obj tp tq rp rq hkey hval =>
      simpa [deepMerge, Val.isObjectLike, ownEnumerable] using
        (DeepContains.obj tp tq rp .objProto hkey hval)
  | .undefined => by
    rw [deepMerge_of_source_not_objectLike x .undefined rfl]
    exact h.nullish _
  | .null => by
    rw [deepMerge_of_source_not_objectLike x .null rfl]
    exact h.nullish _
  | .bool b => by
    rw [deepMerge_of_source_not_objectLike x (.bool b) rfl]
    exact h.nullish _
  | .num n => by
    rw [deepMerge_of_source_not_objectLike x (.num n) rfl]
    exact h.nullish _
  | .str t => by
    rw [deepMerge_of_source_not_objectLike x (.str t) rfl]
    exact h.nullish _
  | .fn name => by
    rw [deepMerge_of_source_not_objectLike x (.fn name) rfl]
    exact h.nullish _
/-- The loop over the properties of a template mapping keeps containment. -/
theorem mergeProps_deepContains (sp : Props) (tp : Props) (tq : Val) (out : Props)
    (proto : Val) (h : DeepContains (.obj tp tq) (.obj out proto))
    (hs : propsNeverMeet tp sp = true) :
    DeepContains (.obj tp tq) (mergeProps out proto sp) :=
  match sp with
  | [] => by rw [mergeProps]; exact h
  | (key, value) :: rest => by
    have hs1 : (∀ tv, getOwn tp key = some tv → seqNeverMeetsMapping tv value = true)
        ∧ propsNeverMeet tp rest = true := by
      rw [propsNeverMeet, Bool.and_eq_true] at hs
      refine ⟨fun tv htv => ?_, hs.2⟩
      have := hs.1
      rw [htv] at this
      exact this
    rw [mergeProps]
    split
    · apply mergeProps_deepContains rest tp tq _ _ _ hs1.2
      apply DeepContains.assign_step tp tq out proto key _ h
      intro v x hv hx
      rw [getProp_own out proto key x hx]
      cases h with
      | obj _ _ _ _ hkey hval =>
        exact deepMerge_deepContains value v x (hval key v x hv hx) (hs1.1 v hv)
    · rename_i hnot
      apply mergeProps_deepContains rest tp tq _ _ _ hs1.2
      exact DeepContains.insert_step tp tq out proto key value h (by simpa using hnot)
/-- The loop over the entries of a template sequence keeps containment. -/
theorem mergeItems_deepContains (ss : List Val) (tp : Props) (tq : Val) (out : Props)
    (proto : Val) (i : Nat) (h : DeepContains (.obj tp tq) (.obj out proto))
    (hs : itemsNeverMeet tp i ss = true) :
    DeepContains (.obj tp tq) (mergeItems out proto i ss) :=
  match ss with
  | [] => by rw [mergeItems]; exact h
  | value :: rest => by
    have hs1 : (∀ tv, getOwn tp (toString i) = some tv → seqNeverMeetsMapping tv value = true)
        ∧ itemsNeverMeet tp (i + 1) rest = true := by
      rw [itemsNeverMeet, Bool.and_eq_true] at hs
      refine ⟨fun tv htv => ?_, hs.2⟩
      have := hs.1
      rw [htv] at this
      exact this
    rw [mergeItems]
    split
    · apply mergeItems_deepContains rest tp tq _ _ _ _ hs1.2
      apply DeepContains.assign_step tp tq out proto (toString i) _ h
      intro v x hv hx
      rw [getProp_own out proto (toString i) x hx]
      cases h with
      | obj _ _ _ _ hkey hval =>
        exact deepMerge_deepContains value v x (hval (toString i) v x hv hx) (hs1.1 v hv)
    · rename_i hnot
      apply mergeItems_deepContains rest tp tq _ _ _ _ hs1.2
      exact DeepContains.insert_step tp tq out proto (toString i) value h (by simpa using hnot)
end

/-! ## The merge rules on concrete documents -/

/-- C1, evaluated where the code departs from it: merging `[{name: "prod"}]` with
`[{name: "prod"}]` keeps both mappings, so the result holds two elements that are
equal by value; the `Set` only identifies primitives. -/
theorem deepMerge_keeps_equal_mappings :
    deepMerge (.arr [prodEntry]) (.arr [prodEntry]) = .arr [prodEntry, prodEntry]
      ∧ ¬ [prodEntry, prodEntry].Nodup := by
  refine ⟨rfl, ?_⟩
  simp

/-- The union rule on primitives: `deepMerge(["a","b"], ["b","c"])` is `["a","b","c"]`. -/
theorem deepMerge_union_strings :
    deepMerge (.arr [.str "a", .str "b"]) (.arr [.str "b", .str "c"])
      = .arr [.str "a", .str "b", .str "c"] := rfl

/-- C2, evaluated where the code departs from it: a sequence target against a
mapping source is not returned unchanged; it is turned into a mapping keyed by
its indices and the source keys are added. -/
theorem deepMerge_seq_against_mapping :
    deepMerge (.arr [.num 1, .num 2]) (Val.plain [("a", .num 1)])
        = Val.plain [("0", .num 1), ("1", .num 2), ("a", .num 1)]
      ∧ deepMerge (.arr [.num 1, .num 2]) (Val.plain [("a", .num 1)]) ≠ .arr [.num 1, .num 2] := by
  refine ⟨rfl, ?_⟩
  decide

/-- When one of the two operands is a scalar, a function or absent, `deepMerge`
returns `target` unless it is `null` or absent, and `source` then. -/
theorem deepMerge_of_not_both_objectLike (target source : Val)
    (h : (target.isObjectLike && source.isObjectLike) = false) :
    deepMerge target source = Val.nullish target source := by
  cases ht : target.isObjectLike
  · exact deepMerge_of_target_not_objectLike target source ht
  · rw [ht] at h
    exact deepMerge_of_source_not_objectLike target source (by simpa using h)

/-- C3 as stated fails: the value `null` at key `a` of the target is replaced by
the template's value `5`. -/
theorem deepMerge_fills_null_value :
    getOwn [("a", Val.null)] "a" = some Val.null
      ∧ deepMerge (Val.plain [("a", .null)]) (Val.plain [("a", .num 5)])
          = Val.plain [("a", .num 5)]
      ∧ Val.num 5 ≠ Val.null := by
  refine ⟨rfl, rfl, ?_⟩
  decide

/-- C3 (amended): for mappings `T` and `S` in which no sequence of `T` is merged
against a mapping of `S`, every key of `T` is a key of `deepMerge(T, S)` and its
value there deep-contains the original one: a `null` may be filled, any other
scalar stays equal, a sequence stays a sequence with every original element and
a mapping stays a mapping that keeps every original key, recursively. -/
theorem deepMerge_keeps_target_keys (tp : Props) (tq : Val) (sp : Props) (sq : Val)
    (hs : seqNeverMeetsMapping (.obj tp tq) (.obj sp sq) = true) :
    ∃ rp rq, deepMerge (.obj tp tq) (.obj sp sq) = .obj rp rq ∧
      ∀ k v, getOwn tp k = some v → ∃ v1, getOwn rp k = some v1 ∧ DeepContains v v1 := by
  have h := deepMerge_deepContains (.obj sp sq) (.obj tp tq) (.obj tp tq)
    (DeepContains.refl _) hs
  generalize deepMerge (.obj tp tq) (.obj sp sq) = r at h
  cases h with
  | obj _ _ rp rq hkey hval =>
    refine ⟨rp, rq, rfl, ?_⟩
    intro k v hk
    obtain ⟨v1, h1⟩ := hkey k v hk
    exact ⟨v1, h1, hval k v v1 hk h1⟩

/-- The amended C3 at the target `{environments: [{name: "prod"}], projectName: null}`
and the template `{projectName: "", environments: []}`. -/
theorem deepMerge_keeps_target_keys_witness :
    seqNeverMeetsMapping
        (.obj [("environments", .arr [prodEntry]), ("projectName", .null)] .objProto)
        (.obj [("projectName", .str ""), ("environments", .arr [])] .objProto) = true
      ∧ ∃ rp rq,
        deepMerge (.obj [("environments", .arr [prodEntry]), ("projectName", .null)] .objProto)
          (.obj [("projectName", .str ""), ("environments", .arr [])] .objProto) = .obj rp rq ∧
        ∀ k v, getOwn [("environments", .arr [prodEntry]), ("projectName", .null)] k = some v →
          ∃ v1, getOwn rp k = some v1 ∧ DeepContains v v1 :=
  ⟨rfl, deepMerge_keeps_target_keys _ _ _ _ rfl⟩

/-- C5, evaluated where the code departs from it: the key `toString` of the
template is absent from the target `{}`, yet the result does not get the
template's value `"x"`: the test `key in out` finds the inherited method and the
result stores that function. -/
theorem deepMerge_inherited_key_not_filled :
    getOwn [] "toString" = none
      ∧ deepMerge (Val.plain []) (Val.plain [("toString", .str "x")])
          = Val.plain [("toString", .fn "toString")]
      ∧ Val.fn "toString" ≠ Val.str "x" := by
  refine ⟨rfl, rfl, ?_⟩
  decide

/-- The scenario of the specification: the target `{environments: [{name: "prod"}]}`
merged with the template `{projectName: "", environments: []}`. -/
theorem deepMerge_scenario :
    deepMerge (Val.plain [("environments", .arr [prodEntry])])
        (Val.plain [("projectName", .str ""), ("environments", .arr [])])
      = Val.plain [("environments", .arr [prodEntry]), ("projectName", .str "")] := rfl

/-! ## The config reconciler -/

section Reconciler

variable {β τ : Type} [DecidableEq τ]

/-- When the template loads and can be serialized, the text of the existing
target fails to parse and the target can be written, `ensureNucleusConfig` first
writes to `nucleus.yaml.bak` the text of the target encoded again (the bytes of
the target when `Y.encode (Y.decode bytes) = bytes`), then writes the serialized
template to `nucleus.yaml`, and adds the backup action and one note that asks
for a manual merge from `nucleus.yaml.bak`. -/
theorem ensureNucleusConfig_quarantines_invalid (Y : Yaml β τ) (w : World β)
    (templateDoc : Val) (templateText : τ) (existingBytes : β)
    (ht : loadTemplate Y w = some templateDoc)
    (hser : Y.stringify templateDoc = some templateText)
    (hc : w.config = some existingBytes)
    (hp : Y.parse (Y.decode existingBytes) = none)
    (hw : w.configLocked = false) :
    ∃ w1, ensureNucleusConfig Y w = .done w1
      ∧ w1.backup = some (Y.encode (Y.decode existingBytes))
      ∧ w1.config = some (Y.encode templateText)
      ∧ w1.writes = w.writes ++ [(File.backup, Y.encode (Y.decode existingBytes)),
          (File.config, Y.encode templateText)]
      ∧ w1.actions = w.actions ++
          ["Backed up invalid nucleus.yaml to nucleus.yaml.bak and wrote a fresh template"]
      ∧ w1.notes = w.notes ++
          ["Your previous nucleus.yaml could not be parsed. Please manually merge from nucleus.yaml.bak."]
      ∧ w1.manifest = w.manifest := by
  have hr : reconcileExisting Y w templateDoc existingBytes = none := by
    simp only [reconcileExisting, hp]
  have hw1 : (w.writeFile .backup (Y.encode (Y.decode existingBytes))).configLocked = false := hw
  have e : ensureNucleusConfig Y w = .done
      ((((w.writeFile .backup (Y.encode (Y.decode existingBytes))).writeFile .config
        (Y.encode templateText)).addAction
        "Backed up invalid nucleus.yaml to nucleus.yaml.bak and wrote a fresh template").addNote
        "Your previous nucleus.yaml could not be parsed. Please manually merge from nucleus.yaml.bak.") := by
    simp only [ensureNucleusConfig, ht, hc, hr, hser, World.writeConfig, hw1]
    rfl
  refine ⟨_, e, ?_⟩
  simp [World.writeFile, World.addAction, World.addNote]

/-- C8 (amended): when the template loads, the target text parses, the merged
document `merged = deepMerge(existing, template)` is serialized without a throw
and the target can be written, `ensureNucleusConfig` writes nothing and records
"already up to date" exactly when the text of the target file is identical to
the serialization of `merged`; otherwise it writes that serialization and
records "updated with missing defaults". -/
theorem ensureNucleusConfig_writes_iff_text_differs (Y : Yaml β τ) (w : World β)
    (templateDoc parsed : Val) (existingBytes : β) (mergedRaw : τ)
    (ht : loadTemplate Y w = some templateDoc)
    (hc : w.config = some existingBytes)
    (hp : Y.parse (Y.decode existingBytes) = some parsed)
    (hser : Y.stringify (deepMerge (Val.nullish parsed Val.emptyObj) templateDoc)
      = some mergedRaw)
    (hw : w.configLocked = false) :
    (mergedRaw = Y.decode existingBytes →
        ensureNucleusConfig Y w = .done (w.addAction "nucleus.yaml already up to date"))
      ∧ (mergedRaw ≠ Y.decode existingBytes →
        ensureNucleusConfig Y w = .done
          ((w.writeFile .config (Y.encode mergedRaw)).addAction
            "Updated nucleus.yaml with missing defaults")) := by
  constructor
  · intro h
    have hr : reconcileExisting Y w templateDoc existingBytes
        = some (w.addAction "nucleus.yaml already up to date") := by
      simp only [reconcileExisting, hp, hser, h, ne_eq, not_true_eq_false, if_false]
    simp only [ensureNucleusConfig, ht, hc, hr]
  · intro h
    have hr : reconcileExisting Y w templateDoc existingBytes
        = some ((w.writeFile .config (Y.encode mergedRaw)).addAction
            "Updated nucleus.yaml with missing defaults") := by
      simp only [reconcileExisting, hp, hser, ne_eq, h, not_false_eq_true, if_true,
        World.writeConfig, hw]
      rfl
    simp only [ensureNucleusConfig, ht, hc, hr]

/-- C10: when loading the template fails in the state `main` hands to
`ensureNucleusConfig`, that call throws without any effect, and `main` ends with
the config, the backup and the manifest as they were, no write, an empty
summary, nothing printed and the failure reported. -/
theorem template_failure_is_fatal (Y : Yaml β τ) (J : Codec β) (w : World β)
    (h : loadTemplate Y (prepareTemplates { w with actions := [], notes := [] }) = none) :
    ensureNucleusConfig Y (prepareTemplates { w with actions := [], notes := [] })
        = .threw (prepareTemplates { w with actions := [], notes := [] })
      ∧ (main Y J w).config = w.config
      ∧ (main Y J w).backup = w.backup
      ∧ (main Y J w).manifest = w.manifest
      ∧ (main Y J w).writes = w.writes
      ∧ (main Y J w).actions = []
      ∧ (main Y J w).notes = []
      ∧ (main Y J w).stdout = w.stdout
      ∧ (main Y J w).failed = true := by
  have e : ensureNucleusConfig Y (prepareTemplates { w with actions := [], notes := [] })
      = .threw (prepareTemplates { w with actions := [], notes := [] }) := by
    simp only [ensureNucleusConfig, h]
  have hp : ∀ u : World β, (prepareTemplates u).config = u.config
      ∧ (prepareTemplates u).backup = u.backup ∧ (prepareTemplates u).manifest = u.manifest
      ∧ (prepareTemplates u).writes = u.writes ∧ (prepareTemplates u).actions = u.actions
      ∧ (prepareTemplates u).notes = u.notes ∧ (prepareTemplates u).stdout = u.stdout := by
    intro u
    unfold prepareTemplates
    split
    · simp
    · split <;> simp
  refine ⟨e, ?_⟩
  simp only [main, e, reportFailure]
  have := hp { w with actions := [], notes := [] }
  simp_all

end Reconciler

/-- C4, evaluated where the code departs from it: with the template
`{environments: [{name: "prod"}]}` and the target `{}`, under a codec whose
parser returns the serialized document, the first run writes the template's
list and the second run writes again, a list with the entry twice, recording
"updated with missing defaults" and not "already up to date". -/
theorem ensureNucleusConfig_second_run_rewrites :
    ∃ w1 w2,
      ensureNucleusConfig idYaml (World.initial (some listTemplate) (some Val.emptyObj) none)
          = .done w1
      ∧ ensureNucleusConfig idYaml w1 = .done w2
      ∧ w1.config = some listTemplate
      ∧ w2.config = some (Val.plain [("environments", .arr [prodEntry, prodEntry])])
      ∧ w2.config ≠ w1.config
      ∧ w2.actions = ["Updated nucleus.yaml with missing defaults",
          "Updated nucleus.yaml with missing defaults"] := by
  refine ⟨_, _, rfl, rfl, rfl, rfl, ?_, rfl⟩
  decide

/-- C6, evaluated where the code departs from it: the target holds the bytes of
`name: [` followed by the byte 255, which is no valid utf8 and does not parse.
The quarantine file does not receive these bytes: it receives the text that
`readFile(destPath, 'utf8')` decoded, encoded again, in which the byte 255 has
become the three bytes 239, 191, 189 of the replacement character. -/
theorem ensureNucleusConfig_backup_reencodes :
    invalidUtf8World.config = some [110, 97, 109, 101, 58, 32, 91, 255]
      ∧ tinyYaml.parse (tinyYaml.decode [110, 97, 109, 101, 58, 32, 91, 255]) = none
      ∧ ∃ w1, ensureNucleusConfig tinyYaml invalidUtf8World = .done w1
          ∧ w1.backup = some [110, 97, 109, 101, 58, 32, 91, 239, 191, 189]
          ∧ w1.backup ≠ invalidUtf8World.config
          ∧ w1.config = some (encodeUtf8 "\x7b\x7d\n")
          ∧ w1.actions =
              ["Backed up invalid nucleus.yaml to nucleus.yaml.bak and wrote a fresh template"] := by
  refine ⟨rfl, by decide, _, rfl, rfl, ?_, rfl, rfl⟩
  decide

/-- C8 as stated fails: the target text is the empty mapping preceded by a
comment line, the template is the empty mapping, so `merged` equals `existing`
and both serialize to the same text; the code still rewrites the file and
records "updated with missing defaults". -/
theorem ensureNucleusConfig_rewrites_reformatted :
    tinyYaml.parse (tinyYaml.decode (encodeUtf8 "# staging\n\x7b\x7d\n")) = some Val.emptyObj
      ∧ tinyYaml.stringify (Val.nullish Val.emptyObj Val.emptyObj)
          = tinyYaml.stringify (deepMerge (Val.nullish Val.emptyObj Val.emptyObj) Val.emptyObj)
      ∧ ∃ w1, ensureNucleusConfig tinyYaml commentedConfigWorld = .done w1
          ∧ w1.writes = [(File.config, encodeUtf8 "\x7b\x7d\n")]
          ∧ w1.actions = ["Updated nucleus.yaml with missing defaults"] := by
  refine ⟨by decide, rfl, _, rfl, rfl, rfl⟩

/-- The `try` block covers more than the parser: with the template `toString: x`
the valid target `{}` merges to a document that holds a function, its
serialization throws, and the code quarantines the valid target and records that
it could not be parsed. -/
theorem ensureNucleusConfig_quarantines_unserializable :
    tinyYaml.parse (tinyYaml.decode (encodeUtf8 "\x7b\x7d\n")) = some Val.emptyObj
      ∧ tinyYaml.stringify (deepMerge (Val.nullish Val.emptyObj Val.emptyObj)
          (Val.plain [("toString", .str "x")])) = none
      ∧ ∃ w1, ensureNucleusConfig tinyYaml inheritedKeyWorld = .done w1
          ∧ w1.backup = some (encodeUtf8 "\x7b\x7d\n")
          ∧ w1.config = some (encodeUtf8 "toString: x\n")
          ∧ w1.actions =
              ["Backed up invalid nucleus.yaml to nucleus.yaml.bak and wrote a fresh template"] := by
  refine ⟨by decide, rfl, _, rfl, rfl, rfl, rfl⟩

/-! ## The manifest script injector -/

theorem hasOwn_append (ps qs : Props) (k : String) :
    hasOwn (ps ++ qs) k = (hasOwn ps k || hasOwn qs k) := by
  induction ps with
  | nil => simp [hasOwn]
  | cons p ps ih =>
    obtain ⟨k1, v1⟩ := p
    simp [hasOwn, ih, Bool.or_assoc]

/-- Defining properties whose keys are new, distinct and no array indices appends
them in order. -/
theorem foldl_defineProp_eq_append (b a : Props)
    (hidx : ∀ e, e ∈ b → arrayIndex? e.1 = none)
    (hnot : ∀ e, e ∈ b → hasOwn a e.1 = false)
    (hnodup : (b.map Prod.fst).Nodup) :
    b.foldl (fun acc entry => defineProp acc entry.1 entry.2) a = a ++ b := by
  induction b generalizing a with
  | nil => simp
  | cons e rest ih =>
    obtain ⟨k, v⟩ := e
    have hk : hasOwn a k = false := hnot (k, v) (List.mem_cons_self _ _)
    have hi : arrayIndex? k = none := hidx (k, v) (List.mem_cons_self _ _)
    have hd : defineProp a k v = a ++ [(k, v)] := by
      simp [defineProp, hk, insertProp, hi]
    simp only [List.foldl_cons, hd]
    rw [ih (a ++ [(k, v)])]
    · simp
    · intro e he
      exact hidx e (List.mem_cons_of_mem _ he)
    · intro e he
      have h1 : hasOwn a e.1 = false := hnot e (List.mem_cons_of_mem _ he)
      have h2 : k ≠ e.1 := by
        intro heq
        simp only [List.map_cons, List.nodup_cons] at hnodup
        exact hnodup.1 (heq ▸ List.mem_map_of_mem Prod.fst he)
      simp [hasOwn_append, h1, hasOwn, h2]
    · simp only [List.map_cons, List.nodup_cons] at hnodup
      exact hnodup.2

/-- The loop over the recommended table collects the commands whose name the
existing scripts value does not own, in table order. -/
theorem collectMissing_recommended (existingScripts : Val) :
    collectMissing existingScripts recommended ([], .objProto)
      = (asProps (recommended.filter (fun entry => !hasOwnProperty existingScripts entry.1)),
          .objProto) := by
  simp only [collectMissing, recommended, List.foldl_cons, List.foldl_nil, List.filter, asProps]
  cases h1 : hasOwnProperty existingScripts "nucleus:help" <;>
  cases h2 : hasOwnProperty existingScripts "nucleus:hello" <;>
  cases h3 : hasOwnProperty existingScripts "nucleus:deploy" <;>
  rfl

theorem assignProp_scripts_proto (props : Props) (v : Val) :
    (assignProp props .objProto "scripts" v).2 = .objProto := by
  unfold assignProp
  split
  · rfl
  · have : findInherited .objProto "scripts" = .absent := by decide
    rw [this]

theorem arrayIndex_recommended (c : String × String) (h : c ∈ recommended) :
    arrayIndex? c.1 = none := by
  simp only [recommended, List.mem_cons, List.mem_singleton, List.not_mem_nil, or_false] at h
  rcases h with h | h | h <;> subst h <;> rfl

theorem asProps_map_fst (table : List (String × String)) :
    (asProps table).map Prod.fst = table.map Prod.fst := by
  simp [asProps, List.map_map, Function.comp_def]

theorem mem_asProps {table : List (String × String)} {e : String × Val} (h : e ∈ asProps table) :
    ∃ c, c ∈ table ∧ e = (c.1, Val.str c.2) := by
  simp only [asProps, List.mem_map] at h
  obtain ⟨c, hc, rfl⟩ := h
  exact ⟨c, hc, rfl⟩

/-- The spread of an existing scripts table and the missing commands is the
table followed by the missing commands. -/
theorem spreadBoth_missing (es : Props) :
    spreadBoth es (asProps (missingCommands es)) = Val.plain (es ++ asProps (missingCommands es)) := by
  unfold spreadBoth
  rw [foldl_defineProp_eq_append]
  · intro e he
    obtain ⟨c, hc, rfl⟩ := mem_asProps he
    exact arrayIndex_recommended c (List.mem_of_mem_filter hc)
  · intro e he
    obtain ⟨c, hc, rfl⟩ := mem_asProps he
    have := (List.mem_filter.mp hc).2
    simpa using this
  · rw [asProps_map_fst]
    have hsub : (missingCommands es).Sublist recommended := List.filter_sublist _
    have hnd : (recommended.map Prod.fst).Nodup := by decide
    exact hnd.sublist (hsub.map Prod.fst)

/-- What `ensureScripts` does on a manifest that parses to a plain object. -/
theorem ensureScripts_plain {β : Type} (J : Codec β) (w : World β) (data : β) (props : Props)
    (hm : w.manifest = some data) (hp : J.parse data = some (Val.plain props)) :
    ensureScripts J w =
      if (asProps (recommended.filter (fun entry =>
            !hasOwnProperty (if (getProp props .objProto "scripts").truthy
              then getProp props .objProto "scripts" else Val.emptyObj) entry.1))).length > 0 then
        .done ((w.writeFile .manifest (J.stringify (.obj (assignProp props .objProto "scripts"
            (spreadBoth (ownEnumerable (if (getProp props .objProto "scripts").truthy
                then getProp props .objProto "scripts" else Val.emptyObj))
              (asProps (recommended.filter (fun entry =>
                !hasOwnProperty (if (getProp props .objProto "scripts").truthy
                  then getProp props .objProto "scripts" else Val.emptyObj) entry.1))))).1
            .objProto))).addAction
          ("Added package.json scripts: " ++ ", ".intercalate
            ((asProps (recommended.filter (fun entry =>
                !hasOwnProperty (if (getProp props .objProto "scripts").truthy
                  then getProp props .objProto "scripts" else Val.emptyObj) entry.1))).map Prod.fst)))
      else .done (w.addAction "All recommended package.json scripts already present") := by
  simp only [ensureScripts, hm, hp, Val.plain, readScripts, collectMissing_recommended,
    writeScripts, assignProp_scripts_proto]

theorem getProp_scripts_absent (props : Props) (h : getOwn props "scripts" = none) :
    getProp props .objProto "scripts" = .undefined := by
  have e : getFrom .objProto .objProto "scripts" = .undefined := by decide
  show getFrom .objProto (.obj props .objProto) "scripts" = .undefined
  rw [getFrom, h]
  exact e

theorem getOwn_assignProp_scripts (props : Props) (v : Val) :
    getOwn (assignProp props .objProto "scripts" v).1 "scripts" = some v := by
  cases h : hasOwn props "scripts"
  · have e : findInherited .objProto "scripts" = .absent := by decide
    simp only [assignProp, h, e]
    exact getOwn_insertProp_self props "scripts" v h
  · exact getOwn_assignProp_own props .objProto "scripts" v h

theorem hasOwn_of_mem {ps : Props} {k : String} {v : Val} (h : (k, v) ∈ ps) :
    hasOwn ps k = true := by
  induction ps with
  | nil => cases h
  | cons p ps ih =>
    obtain ⟨k1, v1⟩ := p
    rcases List.mem_cons.mp h with h | h
    · cases h
      simp [hasOwn]
    · simp [hasOwn, ih h]

/-- Once the missing commands are added, the scripts table has every recommended name. -/
theorem hasOwn_recommended_after (es : Props) (c : String × String) (hc : c ∈ recommended) :
    hasOwn (es ++ asProps (missingCommands es)) c.1 = true := by
  rw [hasOwn_append]
  cases h : hasOwn es c.1
  · have hm : c ∈ missingCommands es := List.mem_filter.mpr ⟨hc, by simp [h]⟩
    have : (c.1, Val.str c.2) ∈ asProps (missingCommands es) :=
      List.mem_map.mpr ⟨c, hm, rfl⟩
    simp [hasOwn_of_mem this]
  · rfl

theorem missingCommands_after (es : Props) :
    missingCommands (es ++ asProps (missingCommands es)) = [] := by
  unfold missingCommands
  rw [List.filter_eq_nil_iff]
  intro c hc
  have := hasOwn_recommended_after es c hc
  unfold missingCommands at this
  simp [this]

/-- What `ensureScripts` does on a manifest that parses to a plain object whose
scripts table is `es` (empty when the manifest has no scripts field). -/
theorem ensureScripts_of_table {β : Type} (J : Codec β) (w : World β) (data : β)
    (props es : Props)
    (hm : w.manifest = some data) (hp : J.parse data = some (Val.plain props))
    (hs : (∃ eq, getOwn props "scripts" = some (.obj es eq))
      ∨ (getOwn props "scripts" = none ∧ es = [])) :
    ensureScripts J w =
      if missingCommands es = [] then
        .done (w.addAction "All recommended package.json scripts already present")
      else
        .done ((w.writeFile .manifest (J.stringify (Val.plain (assignProp props .objProto "scripts"
            (Val.plain (es ++ asProps (missingCommands es)))).1))).addAction
          ("Added package.json scripts: "
            ++ ", ".intercalate ((missingCommands es).map Prod.fst))) := by
  rw [ensureScripts_plain J w data props hm hp]
  have key : ∀ existing : Val, hasOwnProperty existing = hasOwn es → ownEnumerable existing = es →
      (if (asProps (recommended.filter (fun entry =>
            !hasOwnProperty existing entry.1))).length > 0 then
        Outcome.done ((w.writeFile .manifest (J.stringify (.obj (assignProp props .objProto "scripts"
            (spreadBoth (ownEnumerable existing)
              (asProps (recommended.filter (fun entry =>
                !hasOwnProperty existing entry.1))))).1
            .objProto))).addAction
          ("Added package.json scripts: " ++ ", ".intercalate
            ((asProps (recommended.filter (fun entry =>
                !hasOwnProperty existing entry.1))).map Prod.fst)))
      else .done (w.addAction "All recommended package.json scripts already present")) =
      if missingCommands es = [] then
        .done (w.addAction "All recommended package.json scripts already present")
      else
        .done ((w.writeFile .manifest (J.stringify (Val.plain (assignProp props .objProto "scripts"
            (Val.plain (es ++ asProps (missingCommands es)))).1))).addAction
          ("Added package.json scripts: "
            ++ ", ".intercalate ((missingCommands es).map Prod.fst))) := by
    intro existing h1 h2
    have hf : recommended.filter (fun entry => !hasOwnProperty existing entry.1)
        = missingCommands es := by
      rw [h1]; rfl
    rw [hf, h2, spreadBoth_missing, asProps_map_fst]
    by_cases hmiss : missingCommands es = []
    · simp [hmiss, asProps]
    · have : (asProps (missingCommands es)).length > 0 := by
        simp only [asProps, List.length_map]
        exact List.length_pos.mpr hmiss
      simp only [this, hmiss, if_true, if_false, Val.plain]
  rcases hs with ⟨eq, hs⟩ | ⟨hs, rfl⟩
  · rw [getProp_own props .objProto "scripts" _ hs]
    exact key (.obj es eq) (by funext k; rfl) rfl
  · rw [getProp_scripts_absent props hs]
    exact key Val.emptyObj (by funext k; rfl) rfl

section Injector

variable {β : Type}

/-- C7: on a manifest that parses to a mapping, `ensureScripts` either writes
nothing, or writes back a mapping in which every field other than `scripts` has
the value it had and every command name of the existing scripts table still has
its value, whatever the recommended table says about that name. -/
theorem ensureScripts_keeps_existing (J : Codec β) (w : World β) (data : β) (props : Props)
    (hm : w.manifest = some data) (hp : J.parse data = some (Val.plain props)) :
    ∃ w1, ensureScripts J w = .done w1 ∧
      ((w1.manifest = w.manifest ∧ w1.writes = w.writes) ∨
        ∃ props1, w1.manifest = some (J.stringify (Val.plain props1))
          ∧ (∀ f, f ≠ "scripts" → getOwn props1 f = getOwn props f)
          ∧ (∀ es eq name v, getOwn props "scripts" = some (.obj es eq) →
              getOwn es name = some v →
              ∃ es1 eq1, getOwn props1 "scripts" = some (.obj es1 eq1)
                ∧ getOwn es1 name = some v)) := by
  by_cases hex : ∃ es eq, getOwn props "scripts" = some (.obj es eq)
  · obtain ⟨es, eq, hs⟩ := hex
    rw [ensureScripts_of_table J w data props es hm hp (Or.inl ⟨eq, hs⟩)]
    split
    · exact ⟨_, rfl, Or.inl ⟨rfl, rfl⟩⟩
    · refine ⟨_, rfl, Or.inr ⟨(assignProp props .objProto "scripts"
          (Val.plain (es ++ asProps (missingCommands es)))).1, ?_, ?_, ?_⟩⟩
      · simp [World.writeFile, World.addAction]
      · intro f hf
        exact getOwn_assignProp_ne props .objProto "scripts" f _ hf
      · intro es2 eq2 name v hs2 hname
        rw [hs] at hs2
        cases hs2
        refine ⟨_, _, getOwn_assignProp_scripts props _, ?_⟩
        rw [getOwn_append, hname]
        rfl
  · rw [ensureScripts_plain J w data props hm hp]
    generalize (if (getProp props .objProto "scripts").truthy
      then getProp props .objProto "scripts" else Val.emptyObj) = ex
    by_cases hlen : (asProps (recommended.filter (fun entry =>
        !hasOwnProperty ex entry.1))).length > 0
    · rw [if_pos hlen]
      refine ⟨_, rfl, Or.inr ⟨(assignProp props .objProto "scripts"
          (spreadBoth (ownEnumerable ex)
            (asProps (recommended.filter (fun entry => !hasOwnProperty ex entry.1))))).1,
          ?_, ?_, ?_⟩⟩
      · simp [World.writeFile, World.addAction, Val.plain]
      · intro f hf
        exact getOwn_assignProp_ne props .objProto "scripts" f _ hf
      · intro es eq name v hs _
        exact absurd ⟨es, eq, hs⟩ hex
    · rw [if_neg hlen]
      exact ⟨_, rfl, Or.inl ⟨rfl, rfl⟩⟩

/-- C9: on a manifest that parses to a mapping whose scripts table is `es` (empty
when there is no scripts field), with `missing` the recommended commands whose
name is no key of `es`: if `missing` is non-empty, `ensureScripts` writes the
manifest back with `scripts` equal to `es` followed by `missing` and every other
field as it was, and records one action that lists the added names in table
order; if `missing` is empty it writes nothing and records that all recommended
scripts are present.  Every recommended name is then a key of the scripts
table, and when the JSON parser returns what was serialized, a second run
writes nothing. -/
theorem ensureScripts_adds_missing (J : Codec β) (w : World β) (data : β) (props es : Props)
    (hm : w.manifest = some data) (hp : J.parse data = some (Val.plain props))
    (hs : (∃ eq, getOwn props "scripts" = some (.obj es eq))
      ∨ (getOwn props "scripts" = none ∧ es = [])) :
    ∃ w1, ensureScripts J w = .done w1
      ∧ (missingCommands es ≠ [] → ∃ props1,
          w1 = (w.writeFile .manifest (J.stringify (Val.plain props1))).addAction
                ("Added package.json scripts: "
                  ++ ", ".intercalate ((missingCommands es).map Prod.fst))
          ∧ getOwn props1 "scripts" = some (Val.plain (es ++ asProps (missingCommands es)))
          ∧ ∀ f, f ≠ "scripts" → getOwn props1 f = getOwn props f)
      ∧ (missingCommands es = [] →
          w1 = w.addAction "All recommended package.json scripts already present")
      ∧ (∀ c, c ∈ recommended → hasOwn (es ++ asProps (missingCommands es)) c.1 = true)
      ∧ ((∀ d, J.parse (J.stringify d) = some d) →
          ∃ w2, ensureScripts J w1 = .done w2 ∧ w2.writes = w1.writes
            ∧ w2.manifest = w1.manifest
            ∧ w2.actions = w1.actions
                ++ ["All recommended package.json scripts already present"]) := by
  rw [ensureScripts_of_table J w data props es hm hp hs]
  by_cases hmiss : missingCommands es = []
  · rw [if_pos hmiss]
    refine ⟨_, rfl, fun h => absurd hmiss h, fun _ => rfl, hasOwn_recommended_after es, ?_⟩
    intro _
    have hm1 : (w.addAction "All recommended package.json scripts already present").manifest
        = some data := hm
    rw [ensureScripts_of_table J _ data props es hm1 hp hs, if_pos hmiss]
    exact ⟨_, rfl, rfl, rfl, rfl⟩
  · rw [if_neg hmiss]
    refine ⟨_, rfl, fun _ => ⟨_, rfl, getOwn_assignProp_scripts props _, ?_⟩,
      fun h => absurd h hmiss, hasOwn_recommended_after es, ?_⟩
    · intro f hf
      exact getOwn_assignProp_ne props .objProto "scripts" f _ hf
    · intro hrt
      rw [ensureScripts_of_table J _ _ _ (es ++ asProps (missingCommands es)) rfl (hrt _)
        (Or.inl ⟨_, getOwn_assignProp_scripts props _⟩), if_pos (missingCommands_after es)]
      exact ⟨_, rfl, rfl, rfl, rfl⟩

end Injector

/-! ## Repeated runs of the reconciler -/

/-- Whatever the `yaml` package and the encoding, as long as serializing never
throws, the serialized text survives encoding and decoding and the parser
returns the serialized document: with the template
`{environments: [{name: "prod"}]}` and the target `{}`, the second run of
`ensureNucleusConfig` writes again and appends the entry a second time. -/
theorem second_run_rewrites_of_roundtrip {β τ : Type} [DecidableEq τ] (Y : Yaml β τ)
    (render : Val → τ)
    (hser : ∀ d, Y.stringify d = some (render d))
    (hdec : ∀ d, Y.decode (Y.encode (render d)) = render d)
    (hrt : ∀ d, Y.parse (render d) = some d) (w : World β)
    (ht : w.readTemplate = some (Y.encode (render listTemplate)))
    (hc : w.config = some (Y.encode (render Val.emptyObj)))
    (hw : w.configLocked = false) :
    ∃ w1 w2, ensureNucleusConfig Y w = .done w1 ∧ ensureNucleusConfig Y w1 = .done w2
      ∧ w1.config = some (Y.encode (render listTemplate))
      ∧ w2.config = some (Y.encode
          (render (Val.plain [("environments", .arr [prodEntry, prodEntry])])))
      ∧ w2.actions = w.actions ++ ["Updated nucleus.yaml with missing defaults",
          "Updated nucleus.yaml with missing defaults"] := by
  have hinj : ∀ a b, render a = render b → a = b := by
    intro a b h
    have h1 := hrt a
    rw [h, hrt b] at h1
    exact (Option.some.inj h1).symm
  have hne1 : render listTemplate ≠ render Val.emptyObj :=
    fun h => absurd (hinj _ _ h) (by decide)
  have hne2 : render (Val.plain [("environments", .arr [prodEntry, prodEntry])])
      ≠ render listTemplate :=
    fun h => absurd (hinj _ _ h) (by decide)
  have hm1 : deepMerge (Val.nullish Val.emptyObj Val.emptyObj) (Val.nullish listTemplate Val.emptyObj)
      = listTemplate := rfl
  have hm2 : deepMerge (Val.nullish listTemplate Val.emptyObj) (Val.nullish listTemplate Val.emptyObj)
      = Val.plain [("environments", .arr [prodEntry, prodEntry])] := rfl
  have e1 : ensureNucleusConfig Y w = .done
      ((w.writeFile .config (Y.encode (render listTemplate))).addAction
        "Updated nucleus.yaml with missing defaults") := by
    simp only [ensureNucleusConfig, reconcileExisting, loadTemplate, ht, hdec, hrt, hc, hm1,
      hser, ne_eq, hne1, not_false_eq_true, if_true, World.writeConfig, hw]
    rfl
  have e2 : ensureNucleusConfig Y ((w.writeFile .config (Y.encode (render listTemplate))).addAction
      "Updated nucleus.yaml with missing defaults")
      = .done (((((w.writeFile .config (Y.encode (render listTemplate))).addAction
          "Updated nucleus.yaml with missing defaults").writeFile .config
          (Y.encode (render (Val.plain [("environments", .arr [prodEntry, prodEntry])])))).addAction
          "Updated nucleus.yaml with missing defaults")) := by
    have ht2 : ((w.writeFile .config (Y.encode (render listTemplate))).addAction
        "Updated nucleus.yaml with missing defaults").readTemplate
        = some (Y.encode (render listTemplate)) := ht
    have hc2 : ((w.writeFile .config (Y.encode (render listTemplate))).addAction
        "Updated nucleus.yaml with missing defaults").config
        = some (Y.encode (render listTemplate)) := rfl
    have hw2 : ((w.writeFile .config (Y.encode (render listTemplate))).addAction
        "Updated nucleus.yaml with missing defaults").configLocked = false := hw
    simp only [ensureNucleusConfig, reconcileExisting, loadTemplate, ht2, hdec, hrt, hc2, hm2,
      hser, ne_eq, hne2, not_false_eq_true, if_true, World.writeConfig, hw2]
    rfl
  refine ⟨_, _, e1, e2, rfl, rfl, ?_⟩
  simp [World.writeFile, World.addAction]

/-! ## The properties at concrete states -/

/-- The quarantine of a target file with the text `name: [`, which the parser rejects. -/
theorem ensureNucleusConfig_quarantines_invalid_at_broken :
    ∃ w1, ensureNucleusConfig tinyYaml brokenConfigWorld = .done w1
      ∧ w1.backup = brokenConfigWorld.config
      ∧ w1.config = some (encodeUtf8 "\x7b\x7d\n")
      ∧ w1.writes = [(File.backup, encodeUtf8 "name: ["), (File.config, encodeUtf8 "\x7b\x7d\n")]
      ∧ w1.notes =
          ["Your previous nucleus.yaml could not be parsed. Please manually merge from nucleus.yaml.bak."] :=
  ⟨_, rfl, rfl, rfl, rfl, rfl⟩

/-- The amended C8 at two states: a target that holds the canonical text of the
empty mapping under the empty template, which is left alone, and the same target
under the template `projectName: app`, which is rewritten with the default. -/
theorem ensureNucleusConfig_writes_iff_text_differs_witness :
    (loadTemplate tinyYaml tidyConfigWorld = some Val.emptyObj
      ∧ tidyConfigWorld.config = some (encodeUtf8 "\x7b\x7d\n")
      ∧ tinyYaml.parse (tinyYaml.decode (encodeUtf8 "\x7b\x7d\n")) = some Val.emptyObj
      ∧ tinyYaml.stringify (deepMerge (Val.nullish Val.emptyObj Val.emptyObj) Val.emptyObj)
          = some "\x7b\x7d\n"
      ∧ tidyConfigWorld.configLocked = false
      ∧ ensureNucleusConfig tinyYaml tidyConfigWorld
          = .done (tidyConfigWorld.addAction "nucleus.yaml already up to date"))
    ∧ (loadTemplate tinyYaml missingDefaultWorld = some (Val.plain [("projectName", .str "app")])
      ∧ missingDefaultWorld.config = some (encodeUtf8 "\x7b\x7d\n")
      ∧ tinyYaml.stringify (deepMerge (Val.nullish Val.emptyObj Val.emptyObj)
          (Val.plain [("projectName", .str "app")])) = some "projectName: app\n"
      ∧ missingDefaultWorld.configLocked = false
      ∧ "projectName: app\n" ≠ tinyYaml.decode (encodeUtf8 "\x7b\x7d\n")
      ∧ ensureNucleusConfig tinyYaml missingDefaultWorld = .done
          ((missingDefaultWorld.writeFile .config (tinyYaml.encode "projectName: app\n")).addAction
            "Updated nucleus.yaml with missing defaults")) :=
  ⟨⟨rfl, rfl, by decide, rfl, rfl,
      (ensureNucleusConfig_writes_iff_text_differs tinyYaml tidyConfigWorld Val.emptyObj
        Val.emptyObj (encodeUtf8 "\x7b\x7d\n") "\x7b\x7d\n" rfl rfl (by decide) rfl rfl).1
        (by decide)⟩,
    ⟨rfl, rfl, rfl, rfl, by decide,
      (ensureNucleusConfig_writes_iff_text_differs tinyYaml missingDefaultWorld
        (Val.plain [("projectName", .str "app")]) Val.emptyObj (encodeUtf8 "\x7b\x7d\n")
        "projectName: app\n" rfl rfl (by decide) rfl rfl).2 (by decide)⟩⟩

/-- C10 at a state whose `templates` directory holds no `nucleus.yaml`, with an
existing config and a manifest that lacks recommended scripts. -/
theorem template_failure_is_fatal_witness :
    loadTemplate idYaml
        (prepareTemplates { noTemplateWorld with actions := [], notes := [] }) = none
      ∧ ensureNucleusConfig idYaml
          (prepareTemplates { noTemplateWorld with actions := [], notes := [] })
          = .threw (prepareTemplates { noTemplateWorld with actions := [], notes := [] })
      ∧ (main idYaml idCodec noTemplateWorld).config = noTemplateWorld.config
      ∧ (main idYaml idCodec noTemplateWorld).backup = noTemplateWorld.backup
      ∧ (main idYaml idCodec noTemplateWorld).manifest = noTemplateWorld.manifest
      ∧ (main idYaml idCodec noTemplateWorld).writes = noTemplateWorld.writes
      ∧ (main idYaml idCodec noTemplateWorld).actions = []
      ∧ (main idYaml idCodec noTemplateWorld).notes = []
      ∧ (main idYaml idCodec noTemplateWorld).stdout = noTemplateWorld.stdout
      ∧ (main idYaml idCodec noTemplateWorld).failed = true :=
  ⟨rfl, template_failure_is_fatal idYaml idCodec noTemplateWorld rfl⟩

/-- C7 at a manifest whose scripts table maps `nucleus:deploy` to `custom`. -/
theorem ensureScripts_keeps_existing_witness :
    customWorld.manifest = some (Val.plain customManifest)
      ∧ idCodec.parse (Val.plain customManifest) = some (Val.plain customManifest)
      ∧ ∃ w1, ensureScripts idCodec customWorld = .done w1 ∧
        ((w1.manifest = customWorld.manifest ∧ w1.writes = customWorld.writes) ∨
          ∃ props1, w1.manifest = some (idCodec.stringify (Val.plain props1))
            ∧ (∀ f, f ≠ "scripts" → getOwn props1 f = getOwn customManifest f)
            ∧ (∀ es eq name v, getOwn customManifest "scripts" = some (.obj es eq) →
                getOwn es name = some v →
                ∃ es1 eq1, getOwn props1 "scripts" = some (.obj es1 eq1)
                  ∧ getOwn es1 name = some v)) :=
  ⟨rfl, rfl, ensureScripts_keeps_existing idCodec customWorld _ customManifest rfl rfl⟩

/-- The run of `ensureScripts` on that manifest: `nucleus:deploy` keeps the value
`custom` and the two other recommended commands are added after it. -/
theorem ensureScripts_custom_deploy :
    ∃ w1, ensureScripts idCodec customWorld = .done w1
      ∧ w1.manifest = some (Val.plain [("name", .str "app"),
          ("scripts", Val.plain
            [("nucleus:deploy", .str "custom"),
             ("nucleus:help", .str "node -e \"import('nucleus-deploy').then(m=>m.run(['help']))\""),
             ("nucleus:hello", .str "node -e \"import('nucleus-deploy').then(m=>m.run(['hello']))\"")])])
      ∧ w1.actions = ["Added package.json scripts: nucleus:help, nucleus:hello"] :=
  ⟨_, rfl, rfl, by decide⟩

/-- C9 at that manifest. -/
theorem ensureScripts_adds_missing_witness :
    customWorld.manifest = some (Val.plain customManifest)
      ∧ idCodec.parse (Val.plain customManifest) = some (Val.plain customManifest)
      ∧ ((∃ eq, getOwn customManifest "scripts"
              = some (.obj [("nucleus:deploy", .str "custom")] eq))
          ∨ (getOwn customManifest "scripts" = none
              ∧ [("nucleus:deploy", Val.str "custom")] = []))
      ∧ ∃ w1, ensureScripts idCodec customWorld = .done w1
        ∧ (missingCommands [("nucleus:deploy", .str "custom")] ≠ [] → ∃ props1,
            w1 = (customWorld.writeFile .manifest (idCodec.stringify (Val.plain props1))).addAction
                  ("Added package.json scripts: " ++ ", ".intercalate
                    ((missingCommands [("nucleus:deploy", .str "custom")]).map Prod.fst))
            ∧ getOwn props1 "scripts" = some (Val.plain ([("nucleus:deploy", .str "custom")]
                ++ asProps (missingCommands [("nucleus:deploy", .str "custom")])))
            ∧ ∀ f, f ≠ "scripts" → getOwn props1 f = getOwn customManifest f)
        ∧ (missingCommands [("nucleus:deploy", .str "custom")] = [] →
            w1 = customWorld.addAction "All recommended package.json scripts already present")
        ∧ (∀ c, c ∈ recommended →
            hasOwn ([("nucleus:deploy", .str "custom")]
              ++ asProps (missingCommands [("nucleus:deploy", .str "custom")])) c.1 = true)
        ∧ ((∀ d, idCodec.parse (idCodec.stringify d) = some d) →
            ∃ w2, ensureScripts idCodec w1 = .done w2 ∧ w2.writes = w1.writes
              ∧ w2.manifest = w1.manifest
              ∧ w2.actions = w1.actions
                  ++ ["All recommended package.json scripts already present"]) :=
  ⟨rfl, rfl, Or.inl ⟨_, rfl⟩,
    ensureScripts_adds_missing idCodec customWorld _ customManifest
      [("nucleus:deploy", .str "custom")] rfl rfl (Or.inl ⟨_, rfl⟩)⟩

/-! ## The mapping rule away from inherited names -/

theorem getOwn_eq_none_of_not_mem (ps : Props) (k : String)
    (h : k ∉ ps.map Prod.fst) : getOwn ps k = none := by
  induction ps with
  | nil => rfl
  | cons p ps ih =>
    obtain ⟨k1, v1⟩ := p
    simp only [List.map_cons, List.mem_cons, not_or] at h
    have h1 : ¬ k1 = k := fun e => h.1 e.symm
    simp [getOwn, h1, ih h.2]

/-- The merge loop over a template mapping whose keys are distinct and, where
the object built so far lacks them, are no names inherited from
`Object.prototype`: the result is a plain object that has at each key the value
the mapping rule prescribes. -/
theorem mergeProps_lookup (sp out : Props)
    (hnodup : (sp.map Prod.fst).Nodup)
    (hsafe : ∀ k, hasOwn sp k = true → hasOwn out k = false →
      hasProperty .objProto k = false) :
    ∃ rp, mergeProps out .objProto sp = Val.plain rp
      ∧ ∀ k, getOwn rp k = combineAt (getOwn out k) (getOwn sp k) := by
  induction sp generalizing out with
  | nil =>
    refine ⟨out, rfl, fun k => ?_⟩
    cases getOwn out k <;> rfl
  | cons e rest ih =>
    obtain ⟨key, value⟩ := e
    simp only [List.map_cons, List.nodup_cons] at hnodup
    have hrest : getOwn rest key = none := getOwn_eq_none_of_not_mem rest key hnodup.1
    have hsafe1 : ∀ k, hasOwn rest k = true → hasOwn out k = false →
        hasProperty .objProto k = false := by
      intro k hk
      exact hsafe k (by simp [hasOwn, hk])
    rw [mergeProps]
    cases hown : hasOwn out key
    · have hinh : hasProperty .objProto key = false :=
        hsafe key (by simp [hasOwn]) hown
      have hnot : hasProperty (.obj out .objProto) key = false := by
        rw [hasProperty, hown, hinh]; rfl
      rw [if_neg (by simp [hnot])]
      obtain ⟨rp, hrp, hget⟩ := ih (insertProp key value out) hnodup.2 (by
        intro k hk hk2
        apply hsafe1 k hk
        by_cases e : k = key
        · subst e; exact hown
        · rw [hasOwn_eq_isSome] at hk2 ⊢
          rw [getOwn_insertProp_ne out key k value e] at hk2
          exact hk2)
      refine ⟨rp, hrp, fun k => ?_⟩
      rw [hget k]
      by_cases e : k = key
      · subst e
        rw [getOwn_insertProp_self out k value hown, hrest, getOwn_of_hasOwn_false hown]
        simp [getOwn, combineAt]
      · have e1 : ¬ key = k := fun h => e h.symm
        rw [getOwn_insertProp_ne out key k value e]
        simp [getOwn, e1]
    · have hin : hasProperty (.obj out .objProto) key = true := by
        rw [hasProperty, hown]; rfl
      rw [if_pos hin]
      obtain ⟨x, hx⟩ : ∃ x, getOwn out key = some x := by
        rw [hasOwn_eq_isSome] at hown
        exact Option.isSome_iff_exists.mp hown
      have hassign : assignProp out .objProto key (deepMerge (getProp out .objProto key) value)
          = (replaceOwn out key (deepMerge x value), .objProto) := by
        rw [getProp_own out .objProto key x hx]
        simp [assignProp, hown]
      simp only [hassign]
      obtain ⟨rp, hrp, hget⟩ := ih (replaceOwn out key (deepMerge x value)) hnodup.2 (by
        intro k hk hk2
        apply hsafe1 k hk
        by_cases e : k = key
        · subst e
          rw [hasOwn_eq_isSome, getOwn_replaceOwn_self out k _ hown] at hk2
          cases hk2
        · rw [hasOwn_eq_isSome] at hk2 ⊢
          rw [getOwn_replaceOwn_ne out key k _ e] at hk2
          exact hk2)
      refine ⟨rp, hrp, fun k => ?_⟩
      rw [hget k]
      by_cases e : k = key
      · subst e
        rw [getOwn_replaceOwn_self out k _ hown, hrest, hx]
        simp [getOwn, combineAt]
      · have e1 : ¬ key = k := fun h => e h.symm
        rw [getOwn_replaceOwn_ne out key k _ e]
        simp [getOwn, e1]

/-- The mapping rule: for mappings `T` and `S` with distinct keys in `S`, none of
which is both absent from `T` and inherited from `Object.prototype`,
`deepMerge(T, S)` is a plain object with exactly the keys of `T` and of `S`; a
key only in `T` keeps its value, a key only in `S` gets the value of `S`, and a
key in both gets the merged value. -/
theorem deepMerge_mappings_lookup (tp : Props) (tq : Val) (sp : Props) (sq : Val)
    (hnodup : (sp.map Prod.fst).Nodup)
    (hsafe : ∀ k, hasOwn sp k = true → hasOwn tp k = false →
      hasProperty .objProto k = false) :
    ∃ rp, deepMerge (.obj tp tq) (.obj sp sq) = Val.plain rp
      ∧ ∀ k, getOwn rp k = combineAt (getOwn tp k) (getOwn sp k) := by
  have := mergeProps_lookup sp tp hnodup hsafe
  simpa [deepMerge, Val.isObjectLike, ownEnumerable] using this

/-! ## The sequence rule on primitives -/

theorem sameValueZero_self {x : Val} (h : x.isPrimitive = true) :
    Val.sameValueZero x x = true := by
  cases x <;> simp_all [Val.isPrimitive, Val.sameValueZero]

theorem setAdd_of_mem {seen : List Val} {x : Val} (hp : x.isPrimitive = true)
    (h : x ∈ seen) : setAdd seen x = seen := by
  unfold setAdd
  rw [if_pos]
  exact List.any_eq_true.mpr ⟨x, h, sameValueZero_self hp⟩

theorem setAdd_of_not_mem {seen : List Val} {x : Val} (h : x ∉ seen) :
    setAdd seen x = seen ++ [x] := by
  unfold setAdd
  rw [if_neg]
  intro hany
  obtain ⟨y, hy, hs⟩ := List.any_eq_true.mp hany
  exact h (eq_of_sameValueZero hs ▸ hy)

/-- The contents of a `Set` that is fed primitives: nothing twice, what was there
stays in front, and what is added are the new values in their order. -/
theorem foldl_setAdd_primitives (xs seen : List Val)
    (hp : ∀ x, x ∈ xs → x.isPrimitive = true) (hseen : seen.Nodup) :
    (xs.foldl setAdd seen).Nodup
      ∧ (∀ x, x ∈ xs.foldl setAdd seen ↔ x ∈ seen ∨ x ∈ xs)
      ∧ ∃ extra, xs.foldl setAdd seen = seen ++ extra ∧ extra.Sublist xs
          ∧ ∀ x, x ∈ extra → x ∉ seen := by
  induction xs generalizing seen with
  | nil => exact ⟨hseen, by simp, [], by simp, List.Sublist.refl _, by simp⟩
  | cons y ys ih =>
    have hpy : y.isPrimitive = true := hp y (List.mem_cons_self _ _)
    have hpys : ∀ x, x ∈ ys → x.isPrimitive = true :=
      fun x hx => hp x (List.mem_cons_of_mem _ hx)
    simp only [List.foldl_cons]
    by_cases hy : y ∈ seen
    · rw [setAdd_of_mem hpy hy]
      obtain ⟨h1, h2, extra, h3, h4, h5⟩ := ih seen hpys hseen
      refine ⟨h1, fun x => ?_, extra, h3, h4.cons _, h5⟩
      rw [h2 x, List.mem_cons]
      constructor
      · rintro (h | h)
        · exact Or.inl h
        · exact Or.inr (Or.inr h)
      · rintro (h | h | h)
        · exact Or.inl h
        · exact Or.inl (h ▸ hy)
        · exact Or.inr h
    · rw [setAdd_of_not_mem hy]
      have hn : (seen ++ [y]).Nodup := by
        rw [List.nodup_append]
        refine ⟨hseen, List.nodup_singleton y, ?_⟩
        intro a ha hb
        rw [List.mem_singleton] at hb
        exact hy (hb ▸ ha)
      obtain ⟨h1, h2, extra, h3, h4, h5⟩ := ih (seen ++ [y]) hpys hn
      refine ⟨h1, fun x => ?_, y :: extra, ?_, h4.cons₂ _, ?_⟩
      · rw [h2 x, List.mem_append, List.mem_singleton, List.mem_cons]
        constructor
        · rintro ((h | h) | h)
          · exact Or.inl h
          · exact Or.inr (Or.inl h)
          · exact Or.inr (Or.inr h)
        · rintro (h | h | h)
          · exact Or.inl (Or.inl h)
          · exact Or.inl (Or.inr h)
          · exact Or.inr h
      · rw [h3]; simp
      · intro x hx
        rcases List.mem_cons.mp hx with h | h
        · exact h ▸ hy
        · exact fun hs => h5 x h (List.mem_append_left _ hs)

/-- The sequence rule on primitives: for sequences `t` and `s` of scalars,
`deepMerge(t, s)` is the union by value: no value twice, exactly the values of
`t` and of `s`, and, when `t` itself has no value twice, the elements of `t` in
their order followed by elements of `s` in their order that are not in `t`. -/
theorem deepMerge_primitive_union (t s : List Val)
    (ht : ∀ x, x ∈ t → x.isPrimitive = true) (hs : ∀ x, x ∈ s → x.isPrimitive = true) :
    ∃ r, deepMerge (.arr t) (.arr s) = .arr r
      ∧ r.Nodup
      ∧ (∀ x, x ∈ r ↔ x ∈ t ∨ x ∈ s)
      ∧ (t.Nodup → ∃ extra, r = t ++ extra ∧ extra.Sublist s ∧ ∀ x, x ∈ extra → x ∉ t) := by
  refine ⟨uniqueValues (t ++ s), by rw [deepMerge], ?_, ?_, ?_⟩
  · exact (foldl_setAdd_primitives (t ++ s) [] (by
      intro x hx
      rcases List.mem_append.mp hx with h | h
      · exact ht x h
      · exact hs x h) List.nodup_nil).1
  · intro x
    have := (foldl_setAdd_primitives (t ++ s) [] (by
      intro x hx
      rcases List.mem_append.mp hx with h | h
      · exact ht x h
      · exact hs x h) List.nodup_nil).2.1 x
    simpa [uniqueValues] using this
  · intro hnd
    obtain ⟨_, _, e1, h1, h2, h3⟩ := foldl_setAdd_primitives t [] ht List.nodup_nil
    have ht1 : t.foldl setAdd [] = t := by
      have hnd1 := (foldl_setAdd_primitives t [] ht List.nodup_nil).1
      rw [h1] at hnd1 ⊢
      simp only [List.nil_append] at hnd1 ⊢
      have hsub : t ⊆ e1 := by
        intro x hx
        have := ((foldl_setAdd_primitives t [] ht List.nodup_nil).2.1 x).mpr (Or.inr hx)
        rw [h1] at this
        simpa using this
      exact h2.eq_of_length_le (List.subperm_of_subset hnd hsub).length_le
    obtain ⟨_, _, extra, h4, h5, h6⟩ := foldl_setAdd_primitives s t hs hnd
    refine ⟨extra, ?_, h5, h6⟩
    rw [uniqueValues, List.foldl_append, ht1, h4]

end NucleusDeploy
